import Mathlib

/-!
Shallow embedding of the matching/settlement core of the exchange
(`src/app/db_utils/order.py`, `src/app/db_utils/trader.py`,
`src/app/api/v1/public/public.py`).

Modelling conventions:
* Trader ids are `Nat`, tickers are `String`; the base-currency ticker is the
  configured constant `BASE_CURRENCY_TICKER` (env `BASE_SYMBOL` in the source).
* Cash balances and position quantities are total maps (the source eagerly
  materialises a `Position` row for every (trader, instrument) pair at trader
  and instrument creation), with integer values as in the data model.
* A database session is a pure `Exchange` value threaded through the helpers;
  a Python exception is `Except.error msg` with the source's message, and the
  enclosing transaction's rollback is modelled by the caller discarding the
  partially-updated state and continuing from the original one, exactly as
  `session.rollback()` does in `create_limit_buy_order`'s `except` branch.
* `created_at` is a monotone `Nat` stamp drawn from the same counter as order
  ids (`nextOid`), matching the source's monotonic-tie-breaker contract.
-/

abbrev TraderId := Nat
abbrev Ticker := String

inductive OrderSide where
  | ASK
  | BID
deriving DecidableEq, Repr

inductive OrderStatus where
  | NEW
  | EXECUTED
  | PARTIALLY_EXECUTED
  | CANCELLED
deriving DecidableEq, Repr

/-- An order row (`alchemy/models.py`, class `Order`). -/
structure Order where
  oid : Nat
  trader_id : TraderId
  symbol_ticker : Ticker
  amount : Int
  filled : Int
  price : Option Int
  direction : OrderSide
  status : OrderStatus
  created_at : Nat
deriving DecidableEq, Repr

/-- A trade row (`alchemy/models.py`, class `Trade`). -/
structure Trade where
  trader_from_id : TraderId
  trader_to_id : TraderId
  symbol_ticker : Ticker
  amount : Int
  price : Int
deriving DecidableEq, Repr

/-- The persistent store: balances, positions, orders, trades, plus a fresh-id
counter for new order rows. -/
structure Exchange where
  balances : TraderId → Int
  positions : TraderId → Ticker → Int
  orders : List Order
  trades : List Trade
  nextOid : Nat

/-- `BASE_SYMBOL` environment configuration (`order.py` line 14). -/
def BASE_CURRENCY_TICKER : Ticker := "RUB"

/-- `ACTIVE_ORDER_STATUSES = [NEW, PARTIALLY_EXECUTED]` (`order.py` line 16). -/
def isActive (o : Order) : Bool :=
  decide (o.status = OrderStatus.NEW) || decide (o.status = OrderStatus.PARTIALLY_EXECUTED)

/-- `FINAL_ORDER_STATUSES = {PARTIALLY_EXECUTED, EXECUTED, CANCELLED}`
(`order.py` line 15). -/
def isFinal (o : Order) : Bool :=
  decide (o.status = OrderStatus.PARTIALLY_EXECUTED) ||
    decide (o.status = OrderStatus.EXECUTED) ||
      decide (o.status = OrderStatus.CANCELLED)

/-- SQL comparison on the nullable `price` column as the book queries sort it:
ascending order with NULL last (and, symmetrically, NULL first under `desc`),
i.e. `none` behaves as plus infinity. -/
def priceLe : Option Int → Option Int → Bool
  | _, none => true
  | none, some _ => false
  | some x, some y => decide (x ≤ y)

/-- The `ORDER BY` key of `__get_orders` (`order.py` lines 87-90): ascending
price then ascending `created_at` for the ASK side, descending price then
ascending `created_at` for the BID side. -/
def obLe (dir : OrderSide) (a b : Order) : Bool :=
  match dir with
  | OrderSide.ASK =>
      priceLe a.price b.price && (!priceLe b.price a.price || decide (a.created_at ≤ b.created_at))
  | OrderSide.BID =>
      priceLe b.price a.price && (!priceLe a.price b.price || decide (a.created_at ≤ b.created_at))

def bookRel (dir : OrderSide) (a b : Order) : Prop := obLe dir a b = true

instance (dir : OrderSide) : DecidableRel (bookRel dir) := fun a b =>
  inferInstanceAs (Decidable (_ = true))

/-- `__get_orders` (`order.py` lines 73-94): active orders of the instrument
and side, sorted by the side's price-time key, truncated to `limit`. -/
def getOrders (st : Exchange) (ticker : Ticker) (dir : OrderSide) (limit : Nat) : List Order :=
  (List.insertionSort (bookRel dir)
    (st.orders.filter fun o =>
      decide (o.symbol_ticker = ticker) && decide (o.direction = dir) && isActive o)).take limit

/-- Point update of the balance map (`trader.balance += delta`). -/
def updBal (bal : TraderId → Int) (t : TraderId) (d : Int) : TraderId → Int :=
  fun t' => if t' = t then bal t' + d else bal t'

/-- Point update of the position map (`position.quantity += delta`). -/
def updPos (pos : TraderId → Ticker → Int) (t : TraderId) (s : Ticker) (d : Int) :
    TraderId → Ticker → Int :=
  fun t' s' => if t' = t ∧ s' = s then pos t' s' + d else pos t' s'

/-- Writing a mutated order row back to the store (the ORM flush of an order
loaded in the session: the row with the same primary key is replaced). -/
def setOrder (orders : List Order) (o' : Order) : List Order :=
  orders.map fun o => if o.oid = o'.oid then o' else o

/-- `buy` (`order.py` lines 242-277): per-match debit of the buyer's cash,
credit of the seller's cash and of the buyer's position, and the journaled
trade. Raises when the buyer's balance cannot cover `amount * price`. -/
def buy (st : Exchange) (sellerId buyerId : TraderId) (ticker : Ticker)
    (price amount : Int) : Except String Exchange :=
  if st.balances buyerId < amount * price then
    Except.error "Not enough balance"
  else
    Except.ok { st with
      balances := updBal (updBal st.balances sellerId (amount * price)) buyerId (-(amount * price))
      positions := updPos st.positions buyerId ticker amount
      trades := st.trades ++ [{ trader_from_id := sellerId, trader_to_id := buyerId,
                                symbol_ticker := ticker, amount := amount, price := price }] }

/-- `sell` (`order.py` lines 280-320): per-match debit of the seller's
inventory, credit of the seller's cash and of the buyer's position, and the
journaled trade. Raises when the seller's position cannot cover `amount`. -/
def sell (st : Exchange) (sellerId buyerId : TraderId) (ticker : Ticker)
    (price amount : Int) : Except String Exchange :=
  if st.positions sellerId ticker < amount then
    Except.error "Not enough instruments"
  else
    Except.ok { st with
      balances := updBal st.balances sellerId (amount * price)
      positions := updPos (updPos st.positions sellerId ticker (-amount)) buyerId ticker amount
      trades := st.trades ++ [{ trader_from_id := sellerId, trader_to_id := buyerId,
                                symbol_ticker := ticker, amount := amount, price := price }] }

/-- `partially_execute_order` (`order.py` lines 323-339). -/
def partiallyExecuteOrder (o : Order) (amount : Int) : Except String Order :=
  if o.amount < amount then
    Except.error "Order not enough amount"
  else
    Except.ok { o with
      amount := o.amount - amount
      filled := o.filled + amount
      status := if o.amount - amount = 0 then OrderStatus.EXECUTED
                else OrderStatus.PARTIALLY_EXECUTED }

/-- `freeze_balance` (`order.py` lines 342-368). -/
def freezeBalance (st : Exchange) (traderId : TraderId) (ticker : Ticker)
    (amount : Int) : Except String Exchange :=
  if ticker = BASE_CURRENCY_TICKER then
    if st.balances traderId < amount then
      Except.error "Trader not enough balance/instruments"
    else
      Except.ok { st with balances := updBal st.balances traderId (-amount) }
  else
    if st.positions traderId ticker < amount then
      Except.error "Trader not enough balance/instruments"
    else
      Except.ok { st with positions := updPos st.positions traderId ticker (-amount) }

/-- `unfreeze_balance` (`order.py` lines 371-389): unconditional credit. -/
def unfreezeBalance (st : Exchange) (traderId : TraderId) (ticker : Ticker)
    (amount : Int) : Exchange :=
  if ticker = BASE_CURRENCY_TICKER then
    { st with balances := updBal st.balances traderId amount }
  else
    { st with positions := updPos st.positions traderId ticker amount }

/-- `__change_balance` (`trader.py` lines 78-117): signed adjustment of a cash
balance or a position, rejected when the result would be negative. -/
def changeBalance (st : Exchange) (traderId : TraderId) (ticker : Ticker)
    (amount : Int) : Except String Exchange :=
  if ticker = BASE_CURRENCY_TICKER then
    if st.balances traderId + amount < 0 then
      Except.error "Balance must be >= 0"
    else
      Except.ok { st with balances := updBal st.balances traderId amount }
  else
    if st.positions traderId ticker + amount < 0 then
      Except.error "Balance must be >= 0"
    else
      Except.ok { st with positions := updPos st.positions traderId ticker amount }

/-- `change_trader_balance` (`trader.py` lines 65-75): the committing wrapper
around `__change_balance`; on an exception the session context rolls the
transaction back, so the failing call leaves the store unchanged. Admin
deposit passes `+amount`, admin withdraw passes `-amount` (`admin.py`). -/
def changeTraderBalance (st : Exchange) (traderId : TraderId) (ticker : Ticker)
    (amount : Int) : Except String Exchange :=
  changeBalance st traderId ticker amount

/-- `cancel_order` (`order.py` lines 26-56). `Except.ok none` is the source's
`return None` for a missing (id, owner) row; errors are the raised
`HTTPException` messages. -/
def cancelOrder (st : Exchange) (orderId : Nat) (traderId : TraderId) :
    Except String (Option (Exchange × Order)) :=
  match st.orders.find? (fun o => decide (o.oid = orderId) && decide (o.trader_id = traderId)) with
  | none => Except.ok none
  | some o =>
    if isFinal o then
      Except.error "Order executed/partially_executed/cancelled"
    else
      match o.price with
      | none => Except.error "Order is market"
      | some p => do
        let st1 ←
          match o.direction with
          | OrderSide.ASK => changeBalance st o.trader_id o.symbol_ticker o.amount
          | OrderSide.BID => changeBalance st o.trader_id BASE_CURRENCY_TICKER (o.amount * p)
        let o' := { o with status := OrderStatus.CANCELLED }
        Except.ok (some ({ st1 with orders := setOrder st1.orders o' }, o'))

/-- The matching loop of `create_limit_buy_order` (`order.py` lines 117-133):
walk the fetched ASK candidates, breaking on a filled taker or on a maker
price above the taker's limit, trading `min(candidate.amount, remaining)` at
the maker's price via `buy`, and recording the partial executions of both
sides. A market taker (`price = none`) never gates on price. Comparing or
multiplying a NULL maker price raises, as the `int`/`None` operation would. -/
def buyLoop (buyerId : TraderId) (ticker : Ticker) (price : Option Int) :
    Exchange → Order → List Order → Except String (Exchange × Order)
  | st, no, [] => Except.ok (st, no)
  | st, no, m :: rest =>
    if no.amount = 0 then Except.ok (st, no)
    else
      match price, m.price with
      | some _, none => Except.error "TypeError: NoneType comparison"
      | some lp, some mp =>
        if lp < mp then Except.ok (st, no)
        else do
          let st1 ← buy st m.trader_id buyerId ticker mp (min m.amount no.amount)
          let m' ← partiallyExecuteOrder m (min m.amount no.amount)
          let no' ← partiallyExecuteOrder no (min m.amount no.amount)
          buyLoop buyerId ticker price { st1 with orders := setOrder st1.orders m' } no' rest
      | none, none => Except.error "TypeError: NoneType arithmetic"
      | none, some mp => do
        let st1 ← buy st m.trader_id buyerId ticker mp (min m.amount no.amount)
        let m' ← partiallyExecuteOrder m (min m.amount no.amount)
        let no' ← partiallyExecuteOrder no (min m.amount no.amount)
        buyLoop buyerId ticker price { st1 with orders := setOrder st1.orders m' } no' rest

/-- The matching loop of `create_limit_sell_order` (`order.py` lines 184-199):
symmetric to `buyLoop`, breaking on a maker price below the taker's limit and
trading via `sell` (taker is the seller, the maker BID's owner the buyer). -/
def sellLoop (sellerId : TraderId) (ticker : Ticker) (price : Option Int) :
    Exchange → Order → List Order → Except String (Exchange × Order)
  | st, no, [] => Except.ok (st, no)
  | st, no, m :: rest =>
    if no.amount = 0 then Except.ok (st, no)
    else
      match price, m.price with
      | some _, none => Except.error "TypeError: NoneType comparison"
      | some lp, some mp =>
        if mp < lp then Except.ok (st, no)
        else do
          let st1 ← sell st sellerId m.trader_id ticker mp (min m.amount no.amount)
          let m' ← partiallyExecuteOrder m (min m.amount no.amount)
          let no' ← partiallyExecuteOrder no (min m.amount no.amount)
          sellLoop sellerId ticker price { st1 with orders := setOrder st1.orders m' } no' rest
      | none, none => Except.error "TypeError: NoneType arithmetic"
      | none, some mp => do
        let st1 ← sell st sellerId m.trader_id ticker mp (min m.amount no.amount)
        let m' ← partiallyExecuteOrder m (min m.amount no.amount)
        let no' ← partiallyExecuteOrder no (min m.amount no.amount)
        sellLoop sellerId ticker price { st1 with orders := setOrder st1.orders m' } no' rest

/-- The fresh `Order` row built at the top of `create_limit_buy_order` /
`create_limit_sell_order` (`order.py` lines 107-115, 173-181). -/
def newOrderRow (st : Exchange) (traderId : TraderId) (ticker : Ticker)
    (quantity : Int) (price : Option Int) (dir : OrderSide) : Order :=
  { oid := st.nextOid, trader_id := traderId, symbol_ticker := ticker,
    amount := quantity, filled := 0, price := price, direction := dir,
    status := OrderStatus.NEW, created_at := st.nextOid }

/-- The `try` body of `create_limit_buy_order` (`order.py` lines 104-149):
fetch the top `quantity` ASK candidates, run the matching loop, freeze the
remainder's cash for a non-executed limit taker (a market taker with a
remainder raises `Not enough orders`), and persist the new order. -/
def createLimitBuyOrderE (st : Exchange) (ticker : Ticker) (quantity : Int)
    (price : Option Int) (traderId : TraderId) : Except String (Exchange × Order) := do
  let (st1, no1) ← buyLoop traderId ticker price st
    (newOrderRow st traderId ticker quantity price OrderSide.BID)
    (getOrders st ticker OrderSide.ASK quantity.toNat)
  let st2 ←
    if no1.status ≠ OrderStatus.EXECUTED then
      match price with
      | some p => freezeBalance st1 traderId BASE_CURRENCY_TICKER (no1.amount * p)
      | none => Except.error "Not enough orders"
    else pure st1
  pure ({ st2 with orders := st2.orders ++ [no1], nextOid := st2.nextOid + 1 }, no1)

/-- `create_limit_buy_order` (`order.py` lines 97-160): on any exception the
transaction rolls back and a fresh transaction persists the CANCELLED record
with `filled = 0`, `amount = quantity`. -/
def createLimitBuyOrder (st : Exchange) (ticker : Ticker) (quantity : Int)
    (price : Option Int) (traderId : TraderId) : Exchange × Order :=
  match createLimitBuyOrderE st ticker quantity price traderId with
  | Except.ok r => r
  | Except.error _ =>
    let co := { newOrderRow st traderId ticker quantity price OrderSide.BID with
                status := OrderStatus.CANCELLED }
    ({ st with orders := st.orders ++ [co], nextOid := st.nextOid + 1 }, co)

/-- The `try` body of `create_limit_sell_order` (`order.py` lines 170-210):
fetch the top `quantity` BID candidates, run the matching loop, freeze the
remainder's inventory for a non-executed limit taker. -/
def createLimitSellOrderE (st : Exchange) (ticker : Ticker) (quantity : Int)
    (price : Option Int) (traderId : TraderId) : Except String (Exchange × Order) := do
  let (st1, no1) ← sellLoop traderId ticker price st
    (newOrderRow st traderId ticker quantity price OrderSide.ASK)
    (getOrders st ticker OrderSide.BID quantity.toNat)
  let st2 ←
    if no1.status ≠ OrderStatus.EXECUTED then
      match price with
      | some _ => freezeBalance st1 traderId ticker no1.amount
      | none => Except.error "Not enough orders"
    else pure st1
  pure ({ st2 with orders := st2.orders ++ [no1], nextOid := st2.nextOid + 1 }, no1)

/-- `create_limit_sell_order` (`order.py` lines 163-221). -/
def createLimitSellOrder (st : Exchange) (ticker : Ticker) (quantity : Int)
    (price : Option Int) (traderId : TraderId) : Exchange × Order :=
  match createLimitSellOrderE st ticker quantity price traderId with
  | Except.ok r => r
  | Except.error _ =>
    let co := { newOrderRow st traderId ticker quantity price OrderSide.ASK with
                status := OrderStatus.CANCELLED }
    ({ st with orders := st.orders ++ [co], nextOid := st.nextOid + 1 }, co)

/-- `create_market_buy_order` (`order.py` lines 224-230). -/
def createMarketBuyOrder (st : Exchange) (ticker : Ticker) (quantity : Int)
    (traderId : TraderId) : Exchange × Order :=
  createLimitBuyOrder st ticker quantity none traderId

/-- `create_market_sell_order` (`order.py` lines 233-239). -/
def createMarketSellOrder (st : Exchange) (ticker : Ticker) (quantity : Int)
    (traderId : TraderId) : Exchange × Order :=
  createLimitSellOrder st ticker quantity none traderId

/-- The price-level accumulator of `get_orderbook`'s `aggregate_orders`
(`public.py` lines 90-93): a `defaultdict(int)` in insertion order, keyed by
price; a falsy price (NULL or 0) is skipped by `if order.price:`. -/
def aggAdd (acc : List (Int × Int)) (p a : Int) : List (Int × Int) :=
  match acc with
  | [] => [(p, a)]
  | (p', q') :: rest => if p' = p then (p', q' + a) :: rest else (p', q') :: aggAdd rest p a

/-- One loop iteration of `aggregate_orders` (`public.py` lines 91-93). -/
def aggStep (acc : List (Int × Int)) (o : Order) : List (Int × Int) :=
  match o.price with
  | none => acc
  | some p => if p = 0 then acc else aggAdd acc p o.amount

def aggregate (orders : List Order) : List (Int × Int) :=
  orders.foldl aggStep []

/-- Python's ascending sort on the `(price, qty)` items (`sorted(...)` in
`public.py` line 95), lexicographic on the pair. -/
def levelRel (a b : Int × Int) : Prop :=
  (decide (a.1 < b.1) || (decide (a.1 = b.1) && decide (a.2 ≤ b.2))) = true

instance : DecidableRel levelRel := fun a b =>
  inferInstanceAs (Decidable (_ = true))

/-- `aggregate_orders` of `get_orderbook` (`public.py` lines 87-102): fetch the
top `limit` active orders of the side, bucket their `amount` by price, and sort
the levels ascending (descending via `reverse=True` for the BID side). -/
def aggregateOrders (st : Exchange) (ticker : Ticker) (dir : OrderSide)
    (limit : Nat) : List (Int × Int) :=
  let sortedLevels := List.insertionSort levelRel (aggregate (getOrders st ticker dir limit))
  match dir with
  | OrderSide.BID => sortedLevels.reverse
  | OrderSide.ASK => sortedLevels

/-- The fill list the matching algorithm is specified to produce for a BID
taker: visit the candidate makers in fetched order, stop on a filled taker or
on the first maker whose price exceeds the taker's limit (market takers never
gate on price), and fill `min(candidate.amount, remaining)` units at the
maker's own price. An unpriced candidate produces no further fills. -/
def bidFills (buyerId : TraderId) (ticker : Ticker) (p : Option Int) :
    List Order → Int → List Trade
  | [], _ => []
  | m :: rest, rem =>
    if rem = 0 then []
    else
      match m.price with
      | none => []
      | some mp =>
        if (match p with | some lp => decide (lp < mp) | none => false) then []
        else
          { trader_from_id := m.trader_id, trader_to_id := buyerId,
            symbol_ticker := ticker, amount := min m.amount rem, price := mp } ::
            bidFills buyerId ticker p rest (rem - min m.amount rem)

/-- The fill list for an ASK taker: stop on the first maker BID whose price is
below the taker's limit; the taker is the seller of every fill. -/
def askFills (sellerId : TraderId) (ticker : Ticker) (p : Option Int) :
    List Order → Int → List Trade
  | [], _ => []
  | m :: rest, rem =>
    if rem = 0 then []
    else
      match m.price with
      | none => []
      | some mp =>
        if (match p with | some lp => decide (mp < lp) | none => false) then []
        else
          { trader_from_id := sellerId, trader_to_id := m.trader_id,
            symbol_ticker := ticker, amount := min m.amount rem, price := mp } ::
            askFills sellerId ticker p rest (rem - min m.amount rem)

/-- The CANCELLED record persisted by the `except` branch of the submission
functions (`order.py` lines 151-160, 212-221). -/
def cancelledRow (st : Exchange) (traderId : TraderId) (ticker : Ticker)
    (quantity : Int) (price : Option Int) (dir : OrderSide) : Order :=
  { newOrderRow st traderId ticker quantity price dir with status := OrderStatus.CANCELLED }

/-! ## Concrete stores for witnesses and counterexamples -/

/-- A store with a single cash-poor trader: trader 1 holds 100 of the base
currency, no positions, an empty book. -/
def stPoor : Exchange :=
  { balances := fun t => if t = 1 then 100 else 0
    positions := fun _ _ => 0
    orders := []
    trades := []
    nextOid := 1 }

/-- A store whose AAA book is one resting ASK of 10 units at price 5 owned by
trader 2; trader 1 holds 100 cash. -/
def stAskBook : Exchange :=
  { balances := fun t => if t = 1 then 100 else 0
    positions := fun _ _ => 0
    orders := [{ oid := 1, trader_id := 2, symbol_ticker := "AAA", amount := 10,
                 filled := 0, price := some 5, direction := OrderSide.ASK,
                 status := OrderStatus.NEW, created_at := 0 }]
    trades := []
    nextOid := 2 }

/-- Spec §8 scenario 3: trader 1 holds 1000 cash, the CCC book is one resting
ASK of 2 units at price 50 owned by trader 2. -/
def stMarket : Exchange :=
  { balances := fun t => if t = 1 then 1000 else 0
    positions := fun _ _ => 0
    orders := [{ oid := 1, trader_id := 2, symbol_ticker := "CCC", amount := 2,
                 filled := 0, price := some 50, direction := OrderSide.ASK,
                 status := OrderStatus.NEW, created_at := 0 }]
    trades := []
    nextOid := 2 }

/-- A store with two active AAA ASK rows at the same price 10, of 1 and 2
units. -/
def stSamePrice : Exchange :=
  { balances := fun _ => 0
    positions := fun _ _ => 0
    orders := [{ oid := 1, trader_id := 1, symbol_ticker := "AAA", amount := 1,
                 filled := 0, price := some 10, direction := OrderSide.ASK,
                 status := OrderStatus.NEW, created_at := 0 },
               { oid := 2, trader_id := 2, symbol_ticker := "AAA", amount := 2,
                 filled := 0, price := some 10, direction := OrderSide.ASK,
                 status := OrderStatus.NEW, created_at := 1 }]
    trades := []
    nextOid := 3 }

/-- A well-funded store: trader 1 holds 10000 cash and 50 units of AAA;
trader 2 rests an ASK of 5 units of AAA at price 100. -/
def stRich : Exchange :=
  { balances := fun t => if t = 1 then 10000 else 0
    positions := fun t s => if t = 1 ∧ s = "AAA" then 50 else 0
    orders := [{ oid := 1, trader_id := 2, symbol_ticker := "AAA", amount := 5,
                 filled := 0, price := some 100, direction := OrderSide.ASK,
                 status := OrderStatus.NEW, created_at := 0 }]
    trades := []
    nextOid := 2 }

/-- A store whose AAA book is one resting BID of 10 units at price 5 owned by
trader 2; trader 1 holds 50 units of AAA to sell. -/
def stBidBook : Exchange :=
  { balances := fun _ => 0
    positions := fun t s => if t = 1 ∧ s = "AAA" then 50 else 0
    orders := [{ oid := 1, trader_id := 2, symbol_ticker := "AAA", amount := 10,
                 filled := 0, price := some 5, direction := OrderSide.BID,
                 status := OrderStatus.NEW, created_at := 0 }]
    trades := []
    nextOid := 2 }

/-- The aggregate quantity the spec attributes to a price level: the sum of
`amount` over all active orders of the instrument and side at that price. -/
def activeAmountAt (st : Exchange) (ticker : Ticker) (dir : OrderSide) (p : Int) : Int :=
  ((st.orders.filter fun o =>
      decide (o.symbol_ticker = ticker) && decide (o.direction = dir) && isActive o &&
        decide (o.price = some p)).map Order.amount).sum

/-- First-match lookup in a price-level accumulator (the value
`defaultdict` associates with a price key; 0 when absent). -/
def aggVal : List (Int × Int) → Int → Int
  | [], _ => 0
  | (p', v) :: rest, p => if p' = p then v else aggVal rest p

/-- The price under which `aggregate_orders` buckets an order: its price when
truthy (`if order.price:`), nothing for a NULL or zero price. -/
def levelPrice (o : Order) : Option Int :=
  match o.price with
  | none => none
  | some p => if p = 0 then none else some p

/-- Sum of `amount` over the orders of a list bucketed at price `p`. -/
def sumAmountAt (l : List Order) (p : Int) : Int :=
  ((l.filter fun o => decide (levelPrice o = some p)).map Order.amount).sum

/-- Total cash value of a trade list (quantity times price summed). -/
def tradeValue (l : List Trade) : Int :=
  (l.map fun t => t.amount * t.price).sum

/-- The status an order reaches after its fills: EXECUTED at residual zero,
NEW while untouched, PARTIALLY_EXECUTED otherwise. -/
def statusFormula (o : Order) : OrderStatus :=
  if o.amount = 0 then OrderStatus.EXECUTED
  else if o.filled = 0 then OrderStatus.NEW
  else OrderStatus.PARTIALLY_EXECUTED

/-- Modelled from the spec (§4.3 matching loop under the reservation
protocol), the second definition of C2's refinement comparison: the taker's
cash is already reserved, so each match is credit-only - the maker is paid
`q * maker_price`, the taker's position grows by `q`, the trade is journaled,
and the maker row is updated; `consumed` accumulates the reserved cash spent.
The walk stops on a filled taker or on a maker price above the limit. -/
def specBidLoop (tid : TraderId) (tk : Ticker) (lp : Int) :
    Exchange → Int → Int → List Order → Exchange × Int × Int
  | st, rem, consumed, [] => (st, rem, consumed)
  | st, rem, consumed, m :: rest =>
    if rem = 0 then (st, rem, consumed)
    else
      match m.price with
      | none => (st, rem, consumed)
      | some mp =>
        if lp < mp then (st, rem, consumed)
        else
          specBidLoop tid tk lp
            { st with
              balances := updBal st.balances m.trader_id (min m.amount rem * mp)
              positions := updPos st.positions tid tk (min m.amount rem)
              trades := st.trades ++ [{ trader_from_id := m.trader_id
                                        trader_to_id := tid
                                        symbol_ticker := tk
                                        amount := min m.amount rem
                                        price := mp }]
              orders := setOrder st.orders
                { m with
                  amount := m.amount - min m.amount rem
                  filled := m.filled + min m.amount rem
                  status := if m.amount - min m.amount rem = 0 then OrderStatus.EXECUTED
                            else OrderStatus.PARTIALLY_EXECUTED } }
            (rem - min m.amount rem) (consumed + min m.amount rem * mp) rest

/-- Modelled from the spec (§4.3 reservation protocol, priced BID): reserve
`qty * price` cash up front, failing the submission as a CANCELLED record on
overdraft; match credit-only against the fetched candidates; afterwards
unfreeze the over-reservation on the matched portion
(`(qty - remaining) * limit - consumed = Σ q·(limit - maker_price)`), keep
`remaining * limit` frozen for the resting remainder, and persist the order
with `amount = remaining`, `filled = qty - remaining` and the spec's status. -/
def specSubmitBid (st : Exchange) (tk : Ticker) (q p : Int) (tid : TraderId) :
    Exchange × Order :=
  if st.balances tid < q * p then
    ({ st with
        orders := st.orders ++ [cancelledRow st tid tk q (some p) OrderSide.BID]
        nextOid := st.nextOid + 1 },
      cancelledRow st tid tk q (some p) OrderSide.BID)
  else
    let r := specBidLoop tid tk p
      { st with balances := updBal st.balances tid (-(q * p)) } q 0
      (getOrders st tk OrderSide.ASK q.toNat)
    let o : Order := { oid := st.nextOid
                       trader_id := tid
                       symbol_ticker := tk
                       amount := r.2.1
                       filled := q - r.2.1
                       price := some p
                       direction := OrderSide.BID
                       status := if r.2.1 = 0 then OrderStatus.EXECUTED
                                 else if q - r.2.1 = 0 then OrderStatus.NEW
                                 else OrderStatus.PARTIALLY_EXECUTED
                       created_at := st.nextOid }
    ({ r.1 with
        balances := updBal r.1.balances tid ((q - r.2.1) * p - r.2.2)
        orders := r.1.orders ++ [o]
        nextOid := r.1.nextOid + 1 },
      o)

/-- Modelled from the spec (§4.3 matching loop, ASK taker): inventory is
already reserved, so each match credits the taker's cash with
`q * maker_price` and the maker's position with `q`; the walk stops on a
filled taker or on a maker BID priced below the limit. -/
def specAskLoop (tid : TraderId) (tk : Ticker) (lp : Int) :
    Exchange → Int → List Order → Exchange × Int
  | st, rem, [] => (st, rem)
  | st, rem, m :: rest =>
    if rem = 0 then (st, rem)
    else
      match m.price with
      | none => (st, rem)
      | some mp =>
        if mp < lp then (st, rem)
        else
          specAskLoop tid tk lp
            { st with
              balances := updBal st.balances tid (min m.amount rem * mp)
              positions := updPos st.positions m.trader_id tk (min m.amount rem)
              trades := st.trades ++ [{ trader_from_id := tid
                                        trader_to_id := m.trader_id
                                        symbol_ticker := tk
                                        amount := min m.amount rem
                                        price := mp }]
              orders := setOrder st.orders
                { m with
                  amount := m.amount - min m.amount rem
                  filled := m.filled + min m.amount rem
                  status := if m.amount - min m.amount rem = 0 then OrderStatus.EXECUTED
                            else OrderStatus.PARTIALLY_EXECUTED } }
            (rem - min m.amount rem) rest

/-- Modelled from the spec (§4.3 reservation protocol, priced ASK): reserve
`qty` units of inventory up front, failing the submission as a CANCELLED
record on shortfall; match credit-only; the reservation is consumed exactly
by the fills plus the resting remainder, so nothing is refunded. -/
def specSubmitAsk (st : Exchange) (tk : Ticker) (q p : Int) (tid : TraderId) :
    Exchange × Order :=
  if st.positions tid tk < q then
    ({ st with
        orders := st.orders ++ [cancelledRow st tid tk q (some p) OrderSide.ASK]
        nextOid := st.nextOid + 1 },
      cancelledRow st tid tk q (some p) OrderSide.ASK)
  else
    let r := specAskLoop tid tk p
      { st with positions := updPos st.positions tid tk (-q) } q
      (getOrders st tk OrderSide.BID q.toNat)
    let o : Order := { oid := st.nextOid
                       trader_id := tid
                       symbol_ticker := tk
                       amount := r.2
                       filled := q - r.2
                       price := some p
                       direction := OrderSide.ASK
                       status := if r.2 = 0 then OrderStatus.EXECUTED
                                 else if q - r.2 = 0 then OrderStatus.NEW
                                 else OrderStatus.PARTIALLY_EXECUTED
                       created_at := st.nextOid }
    ({ r.1 with
        orders := r.1.orders ++ [o]
        nextOid := r.1.nextOid + 1 },
      o)

/-! ## Well-formedness of stored order rows

These are the data-model invariants of reachable database states (spec §3,
invariants 4, 6-7 and the primary-key/uniqueness constraints of
`alchemy/models.py`): every active order holds at least one unit and carries a
positive limit price, ids are unique, and ids stay below the fresh-id
counter. -/

def wfOrder (o : Order) : Bool :=
  !isActive o || (decide (1 ≤ o.amount) &&
    (match o.price with
     | some p => decide (0 < p)
     | none => false))

def WF (st : Exchange) : Prop :=
  (∀ o ∈ st.orders, wfOrder o = true ∧ o.oid < st.nextOid) ∧
    st.orders.Pairwise (fun a b => a.oid ≠ b.oid)

instance (st : Exchange) : Decidable (WF st) := by
  unfold WF; infer_instance

/-- Spec §8: non-negative cash balances and position quantities. -/
def Nonneg (st : Exchange) : Prop :=
  (∀ t, 0 ≤ st.balances t) ∧ ∀ t s, 0 ≤ st.positions t s

/-! ## The book ordering is a total preorder -/

theorem priceLe_total (a b : Option Int) : priceLe a b = true ∨ priceLe b a = true := by
  cases a <;> cases b <;> simp [priceLe] <;> omega

theorem priceLe_trans {a b c : Option Int} (h1 : priceLe a b = true)
    (h2 : priceLe b c = true) : priceLe a c = true := by
  cases a <;> cases b <;> cases c <;> simp_all [priceLe] <;> omega

instance (dir : OrderSide) : IsTotal Order (bookRel dir) := by
  constructor
  intro a b
  cases dir <;>
    · simp only [bookRel, obLe, Bool.and_eq_true, Bool.or_eq_true, Bool.not_eq_true',
        decide_eq_true_eq]
      by_cases hab : priceLe a.price b.price = true <;>
        by_cases hba : priceLe b.price a.price = true
      · simp [hab, hba]
        omega
      · simp [hab, hba]
      · simp [hab, hba]
      · rcases priceLe_total a.price b.price with h | h
        · exact absurd h hab
        · exact absurd h hba

instance (dir : OrderSide) : IsTrans Order (bookRel dir) := by
  constructor
  intro a b c hab hbc
  cases dir
  · simp only [bookRel, obLe, Bool.and_eq_true, Bool.or_eq_true, Bool.not_eq_true',
      decide_eq_true_eq] at hab hbc ⊢
    obtain ⟨h1, h2⟩ := hab
    obtain ⟨h3, h4⟩ := hbc
    refine ⟨priceLe_trans h1 h3, ?_⟩
    rcases h2 with h2 | h2
    · left
      cases hca : priceLe c.price a.price
      · rfl
      · exact absurd (priceLe_trans h3 hca) (by simp [h2])
    · rcases h4 with h4 | h4
      · left
        cases hca : priceLe c.price a.price
        · rfl
        · exact absurd (priceLe_trans hca h1) (by simp [h4])
      · right
        omega
  · simp only [bookRel, obLe, Bool.and_eq_true, Bool.or_eq_true, Bool.not_eq_true',
      decide_eq_true_eq] at hab hbc ⊢
    obtain ⟨h1, h2⟩ := hab
    obtain ⟨h3, h4⟩ := hbc
    refine ⟨priceLe_trans h3 h1, ?_⟩
    rcases h2 with h2 | h2
    · left
      cases hac : priceLe a.price c.price
      · rfl
      · exact absurd (priceLe_trans hac h3) (by simp [h2])
    · rcases h4 with h4 | h4
      · left
        cases hac : priceLe a.price c.price
        · rfl
        · exact absurd (priceLe_trans h1 hac) (by simp [h4])
      · right
        omega

instance : IsTotal (Int × Int) levelRel := by
  constructor
  intro a b
  simp only [levelRel, Bool.or_eq_true, Bool.and_eq_true, decide_eq_true_eq]
  omega

instance : IsTrans (Int × Int) levelRel := by
  constructor
  intro a b c hab hbc
  simp only [levelRel, Bool.or_eq_true, Bool.and_eq_true, decide_eq_true_eq] at hab hbc ⊢
  omega

/-! ## Basic facts about the fetched book -/

theorem getOrders_subset {st : Exchange} {ticker : Ticker} {dir : OrderSide} {limit : Nat}
    {m : Order} (hm : m ∈ getOrders st ticker dir limit) :
    m ∈ st.orders ∧ isActive m = true ∧ m.direction = dir ∧ m.symbol_ticker = ticker := by
  unfold getOrders at hm
  have h1 := List.mem_of_mem_take hm
  rw [List.mem_insertionSort] at h1
  have h2 := List.mem_of_mem_filter h1
  have h3 := List.of_mem_filter h1
  simp only [Bool.and_eq_true, decide_eq_true_eq] at h3
  exact ⟨h2, h3.2, h3.1.2, h3.1.1⟩

theorem getOrders_sorted (st : Exchange) (ticker : Ticker) (dir : OrderSide) (limit : Nat) :
    List.Sorted (bookRel dir) (getOrders st ticker dir limit) := by
  unfold getOrders
  exact (List.sorted_insertionSort (bookRel dir) _).take

/-- A well-formed active order's amount and price, as used at a match step. -/
theorem wfOrder_active {o : Order} (hw : wfOrder o = true) (ha : isActive o = true) :
    1 ≤ o.amount ∧ ∃ p, o.price = some p ∧ 0 < p := by
  unfold wfOrder at hw
  rw [ha] at hw
  simp only [Bool.not_true, Bool.false_or, Bool.and_eq_true, decide_eq_true_eq] at hw
  refine ⟨hw.1, ?_⟩
  rcases hp : o.price with _ | p
  · rw [hp] at hw
    exact absurd hw.2 (by simp)
  · rw [hp] at hw
    exact ⟨p, rfl, by simpa using hw.2⟩

/-! ## Elimination lemmas for the settlement primitives -/

theorem partiallyExecuteOrder_ok {o : Order} {a : Int} {o' : Order}
    (h : partiallyExecuteOrder o a = Except.ok o') :
    a ≤ o.amount ∧
      o' = { o with
        amount := o.amount - a
        filled := o.filled + a
        status := if o.amount - a = 0 then OrderStatus.EXECUTED
                  else OrderStatus.PARTIALLY_EXECUTED } := by
  unfold partiallyExecuteOrder at h
  split at h
  · exact absurd h (by simp)
  · next hc =>
    injection h with h
    exact ⟨by omega, h.symm⟩

theorem buy_ok {st : Exchange} {s b : TraderId} {tk : Ticker} {p a : Int} {st1 : Exchange}
    (h : buy st s b tk p a = Except.ok st1) :
    a * p ≤ st.balances b ∧
      st1 = { st with
        balances := updBal (updBal st.balances s (a * p)) b (-(a * p))
        positions := updPos st.positions b tk a
        trades := st.trades ++ [{ trader_from_id := s, trader_to_id := b,
                                  symbol_ticker := tk, amount := a, price := p }] } := by
  unfold buy at h
  split at h
  · exact absurd h (by simp)
  · next hc =>
    injection h with h
    exact ⟨by omega, h.symm⟩

theorem sell_ok {st : Exchange} {s b : TraderId} {tk : Ticker} {p a : Int} {st1 : Exchange}
    (h : sell st s b tk p a = Except.ok st1) :
    a ≤ st.positions s tk ∧
      st1 = { st with
        balances := updBal st.balances s (a * p)
        positions := updPos (updPos st.positions s tk (-a)) b tk a
        trades := st.trades ++ [{ trader_from_id := s, trader_to_id := b,
                                  symbol_ticker := tk, amount := a, price := p }] } := by
  unfold sell at h
  split at h
  · exact absurd h (by simp)
  · next hc =>
    injection h with h
    exact ⟨by omega, h.symm⟩

theorem freezeBalance_ok {st : Exchange} {tid : TraderId} {tk : Ticker} {a : Int}
    {st1 : Exchange} (h : freezeBalance st tid tk a = Except.ok st1) :
    (tk = BASE_CURRENCY_TICKER ∧ a ≤ st.balances tid ∧
        st1 = { st with balances := updBal st.balances tid (-a) }) ∨
      (tk ≠ BASE_CURRENCY_TICKER ∧ a ≤ st.positions tid tk ∧
        st1 = { st with positions := updPos st.positions tid tk (-a) }) := by
  unfold freezeBalance at h
  split at h
  · next hbase =>
    split at h
    · exact absurd h (by simp)
    · next hc =>
      injection h with h
      exact Or.inl ⟨hbase, by omega, h.symm⟩
  · next hbase =>
    split at h
    · exact absurd h (by simp)
    · next hc =>
      injection h with h
      exact Or.inr ⟨hbase, by omega, h.symm⟩

theorem changeBalance_ok {st : Exchange} {tid : TraderId} {tk : Ticker} {a : Int}
    {st1 : Exchange} (h : changeBalance st tid tk a = Except.ok st1) :
    (tk = BASE_CURRENCY_TICKER ∧ 0 ≤ st.balances tid + a ∧
        st1 = { st with balances := updBal st.balances tid a }) ∨
      (tk ≠ BASE_CURRENCY_TICKER ∧ 0 ≤ st.positions tid tk + a ∧
        st1 = { st with positions := updPos st.positions tid tk a }) := by
  unfold changeBalance at h
  split at h
  · next hbase =>
    split at h
    · exact absurd h (by simp)
    · next hc =>
      injection h with h
      exact Or.inl ⟨hbase, by omega, h.symm⟩
  · next hbase =>
    split at h
    · exact absurd h (by simp)
    · next hc =>
      injection h with h
      exact Or.inr ⟨hbase, by omega, h.symm⟩

/-! ## Structural lemmas about the matching loops -/

theorem buyLoop_ok_sum {bId : TraderId} {tk : Ticker} {p : Option Int}
    {book : List Order} {st : Exchange} {no : Order} {st' : Exchange} {no' : Order}
    (h : buyLoop bId tk p st no book = Except.ok (st', no')) :
    no'.amount + no'.filled = no.amount + no.filled := by
  induction book generalizing st no with
  | nil =>
    simp only [buyLoop, Except.ok.injEq, Prod.mk.injEq] at h
    rw [← h.2]
  | cons m rest ih =>
    simp only [buyLoop] at h
    by_cases h0 : no.amount = 0
    · rw [if_pos h0] at h
      simp only [Except.ok.injEq, Prod.mk.injEq] at h
      rw [← h.2]
    · rw [if_neg h0] at h
      cases p with
      | some lp =>
        cases hm : m.price with
        | none =>
          rw [hm] at h
          simp at h
        | some mp =>
          rw [hm] at h
          dsimp only at h
          by_cases hlt : lp < mp
          · rw [if_pos hlt] at h
            simp only [Except.ok.injEq, Prod.mk.injEq] at h
            rw [← h.2]
          · rw [if_neg hlt] at h
            cases hb : buy st m.trader_id bId tk mp (min m.amount no.amount) with
            | error e =>
              rw [hb] at h
              simp [bind, Except.bind] at h
            | ok st1 =>
              rw [hb] at h
              simp only [bind, Except.bind] at h
              cases hpm : partiallyExecuteOrder m (min m.amount no.amount) with
              | error e =>
                rw [hpm] at h
                simp at h
              | ok m1 =>
                rw [hpm] at h
                cases hpn : partiallyExecuteOrder no (min m.amount no.amount) with
                | error e =>
                  rw [hpn] at h
                  simp at h
                | ok no1 =>
                  rw [hpn] at h
                  have h1 := (partiallyExecuteOrder_ok hpn).2
                  have h2 := ih h
                  rw [h2, h1]
                  simp
                  try omega
      | none =>
        cases hm : m.price with
        | none =>
          rw [hm] at h
          simp at h
        | some mp =>
          rw [hm] at h
          dsimp only at h
          cases hb : buy st m.trader_id bId tk mp (min m.amount no.amount) with
          | error e =>
            rw [hb] at h
            simp [bind, Except.bind] at h
          | ok st1 =>
            rw [hb] at h
            simp only [bind, Except.bind] at h
            cases hpm : partiallyExecuteOrder m (min m.amount no.amount) with
            | error e =>
              rw [hpm] at h
              simp at h
            | ok m1 =>
              rw [hpm] at h
              cases hpn : partiallyExecuteOrder no (min m.amount no.amount) with
              | error e =>
                rw [hpn] at h
                simp at h
              | ok no1 =>
                rw [hpn] at h
                have h1 := (partiallyExecuteOrder_ok hpn).2
                have h2 := ih h
                rw [h2, h1]
                simp
                try omega

/-- Case analysis for one successful step of `buyLoop`: either the loop broke
(filled taker, or maker price above the limit), or a full match step ran. -/
theorem buyLoop_cons_ok {bId : TraderId} {tk : Ticker} {p : Option Int}
    {m : Order} {rest : List Order} {st : Exchange} {no : Order}
    {st' : Exchange} {no' : Order}
    (h : buyLoop bId tk p st no (m :: rest) = Except.ok (st', no')) :
    (no.amount = 0 ∧ st' = st ∧ no' = no) ∨
      (∃ lp mp, p = some lp ∧ m.price = some mp ∧ lp < mp ∧ no.amount ≠ 0 ∧
        st' = st ∧ no' = no) ∨
      (∃ mp st1 m1 no1, no.amount ≠ 0 ∧ m.price = some mp ∧
        (p = none ∨ ∃ lp, p = some lp ∧ ¬lp < mp) ∧
        buy st m.trader_id bId tk mp (min m.amount no.amount) = Except.ok st1 ∧
        partiallyExecuteOrder m (min m.amount no.amount) = Except.ok m1 ∧
        partiallyExecuteOrder no (min m.amount no.amount) = Except.ok no1 ∧
        buyLoop bId tk p { st1 with orders := setOrder st1.orders m1 } no1 rest =
          Except.ok (st', no')) := by
  simp only [buyLoop] at h
  by_cases h0 : no.amount = 0
  · rw [if_pos h0] at h
    simp only [Except.ok.injEq, Prod.mk.injEq] at h
    exact Or.inl ⟨h0, h.1.symm, h.2.symm⟩
  · rw [if_neg h0] at h
    cases p with
    | some lp =>
      cases hm : m.price with
      | none =>
        rw [hm] at h
        simp at h
      | some mp =>
        rw [hm] at h
        dsimp only at h
        by_cases hlt : lp < mp
        · rw [if_pos hlt] at h
          simp only [Except.ok.injEq, Prod.mk.injEq] at h
          exact Or.inr (Or.inl ⟨lp, mp, rfl, rfl, hlt, h0, h.1.symm, h.2.symm⟩)
        · rw [if_neg hlt] at h
          cases hb : buy st m.trader_id bId tk mp (min m.amount no.amount) with
          | error e =>
            rw [hb] at h
            simp [bind, Except.bind] at h
          | ok st1 =>
            rw [hb] at h
            simp only [bind, Except.bind] at h
            cases hpm : partiallyExecuteOrder m (min m.amount no.amount) with
            | error e =>
              rw [hpm] at h
              simp at h
            | ok m1 =>
              rw [hpm] at h
              cases hpn : partiallyExecuteOrder no (min m.amount no.amount) with
              | error e =>
                rw [hpn] at h
                simp at h
              | ok no1 =>
                rw [hpn] at h
                exact Or.inr (Or.inr ⟨mp, st1, m1, no1, h0, rfl,
                  Or.inr ⟨lp, rfl, hlt⟩, hb, rfl, rfl, h⟩)
    | none =>
      cases hm : m.price with
      | none =>
        rw [hm] at h
        simp at h
      | some mp =>
        rw [hm] at h
        dsimp only at h
        cases hb : buy st m.trader_id bId tk mp (min m.amount no.amount) with
        | error e =>
          rw [hb] at h
          simp [bind, Except.bind] at h
        | ok st1 =>
          rw [hb] at h
          simp only [bind, Except.bind] at h
          cases hpm : partiallyExecuteOrder m (min m.amount no.amount) with
          | error e =>
            rw [hpm] at h
            simp at h
          | ok m1 =>
            rw [hpm] at h
            cases hpn : partiallyExecuteOrder no (min m.amount no.amount) with
            | error e =>
              rw [hpn] at h
              simp at h
            | ok no1 =>
              rw [hpn] at h
              exact Or.inr (Or.inr ⟨mp, st1, m1, no1, h0, rfl, Or.inl rfl, hb, rfl, rfl, h⟩)

/-- Case analysis for one successful step of `sellLoop`. -/
theorem sellLoop_cons_ok {sId : TraderId} {tk : Ticker} {p : Option Int}
    {m : Order} {rest : List Order} {st : Exchange} {no : Order}
    {st' : Exchange} {no' : Order}
    (h : sellLoop sId tk p st no (m :: rest) = Except.ok (st', no')) :
    (no.amount = 0 ∧ st' = st ∧ no' = no) ∨
      (∃ lp mp, p = some lp ∧ m.price = some mp ∧ mp < lp ∧ no.amount ≠ 0 ∧
        st' = st ∧ no' = no) ∨
      (∃ mp st1 m1 no1, no.amount ≠ 0 ∧ m.price = some mp ∧
        (p = none ∨ ∃ lp, p = some lp ∧ ¬mp < lp) ∧
        sell st sId m.trader_id tk mp (min m.amount no.amount) = Except.ok st1 ∧
        partiallyExecuteOrder m (min m.amount no.amount) = Except.ok m1 ∧
        partiallyExecuteOrder no (min m.amount no.amount) = Except.ok no1 ∧
        sellLoop sId tk p { st1 with orders := setOrder st1.orders m1 } no1 rest =
          Except.ok (st', no')) := by
  simp only [sellLoop] at h
  by_cases h0 : no.amount = 0
  · rw [if_pos h0] at h
    simp only [Except.ok.injEq, Prod.mk.injEq] at h
    exact Or.inl ⟨h0, h.1.symm, h.2.symm⟩
  · rw [if_neg h0] at h
    cases p with
    | some lp =>
      cases hm : m.price with
      | none =>
        rw [hm] at h
        simp at h
      | some mp =>
        rw [hm] at h
        dsimp only at h
        by_cases hlt : mp < lp
        · rw [if_pos hlt] at h
          simp only [Except.ok.injEq, Prod.mk.injEq] at h
          exact Or.inr (Or.inl ⟨lp, mp, rfl, rfl, hlt, h0, h.1.symm, h.2.symm⟩)
        · rw [if_neg hlt] at h
          cases hb : sell st sId m.trader_id tk mp (min m.amount no.amount) with
          | error e =>
            rw [hb] at h
            simp [bind, Except.bind] at h
          | ok st1 =>
            rw [hb] at h
            simp only [bind, Except.bind] at h
            cases hpm : partiallyExecuteOrder m (min m.amount no.amount) with
            | error e =>
              rw [hpm] at h
              simp at h
            | ok m1 =>
              rw [hpm] at h
              cases hpn : partiallyExecuteOrder no (min m.amount no.amount) with
              | error e =>
                rw [hpn] at h
                simp at h
              | ok no1 =>
                rw [hpn] at h
                exact Or.inr (Or.inr ⟨mp, st1, m1, no1, h0, rfl,
                  Or.inr ⟨lp, rfl, hlt⟩, hb, rfl, rfl, h⟩)
    | none =>
      cases hm : m.price with
      | none =>
        rw [hm] at h
        simp at h
      | some mp =>
        rw [hm] at h
        dsimp only at h
        cases hb : sell st sId m.trader_id tk mp (min m.amount no.amount) with
        | error e =>
          rw [hb] at h
          simp [bind, Except.bind] at h
        | ok st1 =>
          rw [hb] at h
          simp only [bind, Except.bind] at h
          cases hpm : partiallyExecuteOrder m (min m.amount no.amount) with
          | error e =>
            rw [hpm] at h
            simp at h
          | ok m1 =>
            rw [hpm] at h
            cases hpn : partiallyExecuteOrder no (min m.amount no.amount) with
            | error e =>
              rw [hpn] at h
              simp at h
            | ok no1 =>
              rw [hpn] at h
              exact Or.inr (Or.inr ⟨mp, st1, m1, no1, h0, rfl, Or.inl rfl, hb, rfl, rfl, h⟩)

theorem partiallyExecuteOrder_fields {o : Order} {a : Int} {o' : Order}
    (h : partiallyExecuteOrder o a = Except.ok o') :
    a ≤ o.amount ∧ o'.amount = o.amount - a ∧ o'.filled = o.filled + a ∧
      (o'.status = OrderStatus.EXECUTED ↔ o'.amount = 0) ∧
      o'.status ≠ OrderStatus.NEW ∧
      o'.oid = o.oid ∧ o'.trader_id = o.trader_id ∧ o'.price = o.price ∧
      o'.symbol_ticker = o.symbol_ticker ∧ o'.direction = o.direction ∧
      o'.created_at = o.created_at := by
  obtain ⟨hle, rfl⟩ := partiallyExecuteOrder_ok h
  refine ⟨hle, rfl, rfl, ?_, ?_, rfl, rfl, rfl, rfl, rfl, rfl⟩ <;>
    by_cases hz : o.amount - a = 0 <;> simp [hz]

theorem buyLoop_exec_zero {bId : TraderId} {tk : Ticker} {p : Option Int}
    {book : List Order} {st : Exchange} {no : Order} {st' : Exchange} {no' : Order}
    (h : buyLoop bId tk p st no book = Except.ok (st', no'))
    (hin : no.status = OrderStatus.EXECUTED → no.amount = 0) :
    no'.status = OrderStatus.EXECUTED → no'.amount = 0 := by
  induction book generalizing st no with
  | nil =>
    simp only [buyLoop, Except.ok.injEq, Prod.mk.injEq] at h
    rw [← h.2]
    exact hin
  | cons m rest ih =>
    rcases buyLoop_cons_ok h with ⟨h0, rfl, rfl⟩ | ⟨lp, mp, hp, hm, hlt, h0, rfl, rfl⟩ |
      ⟨mp, st1, m1, no1, h0, hm, hgate, hb, hpm, hpn, hrec⟩
    · exact hin
    · exact hin
    · exact ih hrec fun hE => ((partiallyExecuteOrder_fields hpn).2.2.2.1).mp hE

theorem buyLoop_ne_new {bId : TraderId} {tk : Ticker} {p : Option Int}
    {book : List Order} {st : Exchange} {no : Order} {st' : Exchange} {no' : Order}
    (h : buyLoop bId tk p st no book = Except.ok (st', no'))
    (hin : no.status ≠ OrderStatus.NEW) : no'.status ≠ OrderStatus.NEW := by
  induction book generalizing st no with
  | nil =>
    simp only [buyLoop, Except.ok.injEq, Prod.mk.injEq] at h
    rw [← h.2]
    exact hin
  | cons m rest ih =>
    rcases buyLoop_cons_ok h with ⟨h0, rfl, rfl⟩ | ⟨lp, mp, hp, hm, hlt, h0, rfl, rfl⟩ |
      ⟨mp, st1, m1, no1, h0, hm, hgate, hb, hpm, hpn, hrec⟩
    · exact hin
    · exact hin
    · exact ih hrec (partiallyExecuteOrder_fields hpn).2.2.2.2.1

theorem buyLoop_no_match {bId : TraderId} {tk : Ticker} {p : Option Int}
    {book : List Order} {st : Exchange} {no : Order} {st' : Exchange} {no' : Order}
    (h : buyLoop bId tk p st no book = Except.ok (st', no'))
    (hnew : no'.status = OrderStatus.NEW) : st' = st ∧ no' = no := by
  induction book generalizing st no with
  | nil =>
    simp only [buyLoop, Except.ok.injEq, Prod.mk.injEq] at h
    exact ⟨h.1.symm, h.2.symm⟩
  | cons m rest ih =>
    rcases buyLoop_cons_ok h with ⟨h0, rfl, rfl⟩ | ⟨lp, mp, hp, hm, hlt, h0, rfl, rfl⟩ |
      ⟨mp, st1, m1, no1, h0, hm, hgate, hb, hpm, hpn, hrec⟩
    · exact ⟨rfl, rfl⟩
    · exact ⟨rfl, rfl⟩
    · exact absurd hnew (buyLoop_ne_new hrec (partiallyExecuteOrder_fields hpn).2.2.2.2.1)

theorem sellLoop_ok_sum {sId : TraderId} {tk : Ticker} {p : Option Int}
    {book : List Order} {st : Exchange} {no : Order} {st' : Exchange} {no' : Order}
    (h : sellLoop sId tk p st no book = Except.ok (st', no')) :
    no'.amount + no'.filled = no.amount + no.filled := by
  induction book generalizing st no with
  | nil =>
    simp only [sellLoop, Except.ok.injEq, Prod.mk.injEq] at h
    rw [← h.2]
  | cons m rest ih =>
    rcases sellLoop_cons_ok h with ⟨h0, rfl, rfl⟩ | ⟨lp, mp, hp, hm, hlt, h0, rfl, rfl⟩ |
      ⟨mp, st1, m1, no1, h0, hm, hgate, hb, hpm, hpn, hrec⟩
    · rfl
    · rfl
    · have h1 := (partiallyExecuteOrder_fields hpn)
      have h2 := ih hrec
      omega

theorem sellLoop_exec_zero {sId : TraderId} {tk : Ticker} {p : Option Int}
    {book : List Order} {st : Exchange} {no : Order} {st' : Exchange} {no' : Order}
    (h : sellLoop sId tk p st no book = Except.ok (st', no'))
    (hin : no.status = OrderStatus.EXECUTED → no.amount = 0) :
    no'.status = OrderStatus.EXECUTED → no'.amount = 0 := by
  induction book generalizing st no with
  | nil =>
    simp only [sellLoop, Except.ok.injEq, Prod.mk.injEq] at h
    rw [← h.2]
    exact hin
  | cons m rest ih =>
    rcases sellLoop_cons_ok h with ⟨h0, rfl, rfl⟩ | ⟨lp, mp, hp, hm, hlt, h0, rfl, rfl⟩ |
      ⟨mp, st1, m1, no1, h0, hm, hgate, hb, hpm, hpn, hrec⟩
    · exact hin
    · exact hin
    · exact ih hrec fun hE => ((partiallyExecuteOrder_fields hpn).2.2.2.1).mp hE

theorem sellLoop_ne_new {sId : TraderId} {tk : Ticker} {p : Option Int}
    {book : List Order} {st : Exchange} {no : Order} {st' : Exchange} {no' : Order}
    (h : sellLoop sId tk p st no book = Except.ok (st', no'))
    (hin : no.status ≠ OrderStatus.NEW) : no'.status ≠ OrderStatus.NEW := by
  induction book generalizing st no with
  | nil =>
    simp only [sellLoop, Except.ok.injEq, Prod.mk.injEq] at h
    rw [← h.2]
    exact hin
  | cons m rest ih =>
    rcases sellLoop_cons_ok h with ⟨h0, rfl, rfl⟩ | ⟨lp, mp, hp, hm, hlt, h0, rfl, rfl⟩ |
      ⟨mp, st1, m1, no1, h0, hm, hgate, hb, hpm, hpn, hrec⟩
    · exact hin
    · exact hin
    · exact ih hrec (partiallyExecuteOrder_fields hpn).2.2.2.2.1

theorem sellLoop_no_match {sId : TraderId} {tk : Ticker} {p : Option Int}
    {book : List Order} {st : Exchange} {no : Order} {st' : Exchange} {no' : Order}
    (h : sellLoop sId tk p st no book = Except.ok (st', no'))
    (hnew : no'.status = OrderStatus.NEW) : st' = st ∧ no' = no := by
  induction book generalizing st no with
  | nil =>
    simp only [sellLoop, Except.ok.injEq, Prod.mk.injEq] at h
    exact ⟨h.1.symm, h.2.symm⟩
  | cons m rest ih =>
    rcases sellLoop_cons_ok h with ⟨h0, rfl, rfl⟩ | ⟨lp, mp, hp, hm, hlt, h0, rfl, rfl⟩ |
      ⟨mp, st1, m1, no1, h0, hm, hgate, hb, hpm, hpn, hrec⟩
    · exact ⟨rfl, rfl⟩
    · exact ⟨rfl, rfl⟩
    · exact absurd hnew (sellLoop_ne_new hrec (partiallyExecuteOrder_fields hpn).2.2.2.2.1)

theorem setOrder_mem {orders : List Order} {o' x : Order}
    (hx : x ∈ setOrder orders o') : x = o' ∨ x ∈ orders := by
  unfold setOrder at hx
  obtain ⟨y, hy, hxy⟩ := List.mem_map.mp hx
  by_cases h : y.oid = o'.oid
  · rw [if_pos h] at hxy
    exact Or.inl hxy.symm
  · rw [if_neg h] at hxy
    exact Or.inr (hxy ▸ hy)

theorem buyLoop_orders_sum {bId : TraderId} {tk : Ticker} {p : Option Int}
    {book : List Order} {st : Exchange} {no : Order} {st' : Exchange} {no' : Order}
    (base : List Order)
    (hbook : ∀ m ∈ book, ∃ o ∈ base, o.oid = m.oid ∧ m.amount + m.filled = o.amount + o.filled)
    (hst : ∀ x ∈ st.orders, ∃ o ∈ base, o.oid = x.oid ∧ x.amount + x.filled = o.amount + o.filled)
    (h : buyLoop bId tk p st no book = Except.ok (st', no')) :
    ∀ x ∈ st'.orders, ∃ o ∈ base, o.oid = x.oid ∧ x.amount + x.filled = o.amount + o.filled := by
  induction book generalizing st no with
  | nil =>
    simp only [buyLoop, Except.ok.injEq, Prod.mk.injEq] at h
    rw [← h.1]
    exact hst
  | cons m rest ih =>
    rcases buyLoop_cons_ok h with ⟨h0, rfl, rfl⟩ | ⟨lp, mp, hp, hm, hlt, h0, rfl, rfl⟩ |
      ⟨mp, st1, m1, no1, h0, hm, hgate, hb, hpm, hpn, hrec⟩
    · exact hst
    · exact hst
    · refine ih (fun m' hm' => hbook m' (List.mem_cons_of_mem _ hm')) ?_ hrec
      intro x hx
      have horders : st1.orders = st.orders := by rw [(buy_ok hb).2]
      rw [horders] at hx
      rcases setOrder_mem hx with rfl | hx'
      · obtain ⟨o, ho, hoid, hsum⟩ := hbook m (List.mem_cons_self _ _)
        have hf := partiallyExecuteOrder_fields hpm
        exact ⟨o, ho, by omega, by omega⟩
      · exact hst x hx'

theorem sellLoop_orders_sum {sId : TraderId} {tk : Ticker} {p : Option Int}
    {book : List Order} {st : Exchange} {no : Order} {st' : Exchange} {no' : Order}
    (base : List Order)
    (hbook : ∀ m ∈ book, ∃ o ∈ base, o.oid = m.oid ∧ m.amount + m.filled = o.amount + o.filled)
    (hst : ∀ x ∈ st.orders, ∃ o ∈ base, o.oid = x.oid ∧ x.amount + x.filled = o.amount + o.filled)
    (h : sellLoop sId tk p st no book = Except.ok (st', no')) :
    ∀ x ∈ st'.orders, ∃ o ∈ base, o.oid = x.oid ∧ x.amount + x.filled = o.amount + o.filled := by
  induction book generalizing st no with
  | nil =>
    simp only [sellLoop, Except.ok.injEq, Prod.mk.injEq] at h
    rw [← h.1]
    exact hst
  | cons m rest ih =>
    rcases sellLoop_cons_ok h with ⟨h0, rfl, rfl⟩ | ⟨lp, mp, hp, hm, hlt, h0, rfl, rfl⟩ |
      ⟨mp, st1, m1, no1, h0, hm, hgate, hb, hpm, hpn, hrec⟩
    · exact hst
    · exact hst
    · refine ih (fun m' hm' => hbook m' (List.mem_cons_of_mem _ hm')) ?_ hrec
      intro x hx
      have horders : st1.orders = st.orders := by rw [(sell_ok hb).2]
      rw [horders] at hx
      rcases setOrder_mem hx with rfl | hx'
      · obtain ⟨o, ho, hoid, hsum⟩ := hbook m (List.mem_cons_self _ _)
        have hf := partiallyExecuteOrder_fields hpm
        exact ⟨o, ho, by omega, by omega⟩
      · exact hst x hx'

theorem buyLoop_nonneg {bId : TraderId} {tk : Ticker} {p : Option Int}
    {book : List Order} {st : Exchange} {no : Order} {st' : Exchange} {no' : Order}
    (hnn : Nonneg st) (hno : 0 ≤ no.amount)
    (hbook : ∀ m ∈ book, 1 ≤ m.amount ∧ ∃ mp, m.price = some mp ∧ 0 < mp)
    (h : buyLoop bId tk p st no book = Except.ok (st', no')) : Nonneg st' := by
  induction book generalizing st no with
  | nil =>
    simp only [buyLoop, Except.ok.injEq, Prod.mk.injEq] at h
    rw [← h.1]
    exact hnn
  | cons m rest ih =>
    rcases buyLoop_cons_ok h with ⟨h0, rfl, rfl⟩ | ⟨lp, mp, hp, hm, hlt, h0, rfl, rfl⟩ |
      ⟨mp, st1, m1, no1, h0, hm, hgate, hb, hpm, hpn, hrec⟩
    · exact hnn
    · exact hnn
    · obtain ⟨hma, mp', hmp', hmp'pos⟩ := hbook m (List.mem_cons_self _ _)
      rw [hm] at hmp'
      injection hmp' with hmp'
      subst hmp'
      have hq1 : 1 ≤ min m.amount no.amount := by omega
      have hqmp : 0 ≤ min m.amount no.amount * mp :=
        mul_nonneg (by omega) (le_of_lt hmp'pos)
      obtain ⟨hcheck, rfl⟩ := buy_ok hb
      refine ih ⟨?_, ?_⟩ ?_ (fun m' hm' => hbook m' (List.mem_cons_of_mem _ hm')) hrec
      · intro t
        have h1 := hnn.1 t
        have h2 := hnn.1 bId
        have h3 := hnn.1 m.trader_id
        simp only [updBal]
        by_cases htb : t = bId <;> by_cases hts : t = m.trader_id <;>
          simp [htb, hts] <;> omega
      · intro t s
        simp only [updPos]
        split
        · have := hnn.2 t s
          omega
        · exact hnn.2 t s
      · have := (partiallyExecuteOrder_fields hpn).2.1
        omega

theorem sellLoop_nonneg {sId : TraderId} {tk : Ticker} {p : Option Int}
    {book : List Order} {st : Exchange} {no : Order} {st' : Exchange} {no' : Order}
    (hnn : Nonneg st) (hno : 0 ≤ no.amount)
    (hbook : ∀ m ∈ book, 1 ≤ m.amount ∧ ∃ mp, m.price = some mp ∧ 0 < mp)
    (h : sellLoop sId tk p st no book = Except.ok (st', no')) : Nonneg st' := by
  induction book generalizing st no with
  | nil =>
    simp only [sellLoop, Except.ok.injEq, Prod.mk.injEq] at h
    rw [← h.1]
    exact hnn
  | cons m rest ih =>
    rcases sellLoop_cons_ok h with ⟨h0, rfl, rfl⟩ | ⟨lp, mp, hp, hm, hlt, h0, rfl, rfl⟩ |
      ⟨mp, st1, m1, no1, h0, hm, hgate, hb, hpm, hpn, hrec⟩
    · exact hnn
    · exact hnn
    · obtain ⟨hma, mp', hmp', hmp'pos⟩ := hbook m (List.mem_cons_self _ _)
      rw [hm] at hmp'
      injection hmp' with hmp'
      subst hmp'
      have hq1 : 1 ≤ min m.amount no.amount := by omega
      have hqmp : 0 ≤ min m.amount no.amount * mp :=
        mul_nonneg (by omega) (le_of_lt hmp'pos)
      obtain ⟨hcheck, rfl⟩ := sell_ok hb
      refine ih ⟨?_, ?_⟩ ?_ (fun m' hm' => hbook m' (List.mem_cons_of_mem _ hm')) hrec
      · intro t
        simp only [updBal]
        split
        · have := hnn.1 t
          omega
        · exact hnn.1 t
      · intro t s
        have h1 := hnn.2 t s
        have h2 := hnn.2 sId tk
        have h3 := hnn.2 m.trader_id tk
        simp only [updPos]
        by_cases hts : t = sId ∧ s = tk <;> by_cases htm : t = m.trader_id ∧ s = tk <;>
          simp [hts, htm] <;> omega
      · have := (partiallyExecuteOrder_fields hpn).2.1
        omega

theorem buyLoop_trades {bId : TraderId} {tk : Ticker} {p : Option Int}
    {book : List Order} {st : Exchange} {no : Order} {st' : Exchange} {no' : Order}
    (h : buyLoop bId tk p st no book = Except.ok (st', no')) :
    st'.trades = st.trades ++ bidFills bId tk p book no.amount := by
  induction book generalizing st no with
  | nil =>
    simp only [buyLoop, Except.ok.injEq, Prod.mk.injEq] at h
    rw [← h.1]
    simp [bidFills]
  | cons m rest ih =>
    rcases buyLoop_cons_ok h with ⟨h0, rfl, rfl⟩ | ⟨lp, mp, hp, hm, hlt, h0, rfl, rfl⟩ |
      ⟨mp, st1, m1, no1, h0, hm, hgate, hb, hpm, hpn, hrec⟩
    · simp [bidFills, h0]
    · subst hp
      simp [bidFills, h0, hm, hlt]
    · have htr := ih hrec
      obtain ⟨hcheck, rfl⟩ := buy_ok hb
      have hfn := partiallyExecuteOrder_fields hpn
      rw [htr]
      rcases hgate with rfl | ⟨lp, rfl, hnlt⟩
      · simp [bidFills, h0, hm, hfn.2.1, List.append_assoc]
      · simp [bidFills, h0, hm, hnlt, hfn.2.1, List.append_assoc]

theorem sellLoop_trades {sId : TraderId} {tk : Ticker} {p : Option Int}
    {book : List Order} {st : Exchange} {no : Order} {st' : Exchange} {no' : Order}
    (h : sellLoop sId tk p st no book = Except.ok (st', no')) :
    st'.trades = st.trades ++ askFills sId tk p book no.amount := by
  induction book generalizing st no with
  | nil =>
    simp only [sellLoop, Except.ok.injEq, Prod.mk.injEq] at h
    rw [← h.1]
    simp [askFills]
  | cons m rest ih =>
    rcases sellLoop_cons_ok h with ⟨h0, rfl, rfl⟩ | ⟨lp, mp, hp, hm, hlt, h0, rfl, rfl⟩ |
      ⟨mp, st1, m1, no1, h0, hm, hgate, hb, hpm, hpn, hrec⟩
    · simp [askFills, h0]
    · subst hp
      simp [askFills, h0, hm, hlt]
    · have htr := ih hrec
      obtain ⟨hcheck, rfl⟩ := sell_ok hb
      have hfn := partiallyExecuteOrder_fields hpn
      rw [htr]
      rcases hgate with rfl | ⟨lp, rfl, hnlt⟩
      · simp [askFills, h0, hm, hfn.2.1, List.append_assoc]
      · simp [askFills, h0, hm, hnlt, hfn.2.1, List.append_assoc]

theorem buyLoop_full_fill {bId : TraderId} {tk : Ticker} {p : Option Int}
    {book : List Order} {st : Exchange} {no : Order} {st' : Exchange} {no' : Order}
    (hbook1 : ∀ m ∈ book, 1 ≤ m.amount)
    (hgate : ∀ m ∈ book, ∀ lp, p = some lp → ∃ mp, m.price = some mp ∧ mp ≤ lp)
    (hlen : no.amount ≤ (book.length : Int)) (hnn : 0 ≤ no.amount)
    (h : buyLoop bId tk p st no book = Except.ok (st', no')) : no'.amount = 0 := by
  induction book generalizing st no with
  | nil =>
    simp only [buyLoop, Except.ok.injEq, Prod.mk.injEq] at h
    rw [← h.2]
    simp only [List.length_nil, Nat.cast_zero] at hlen
    omega
  | cons m rest ih =>
    rcases buyLoop_cons_ok h with ⟨h0, rfl, rfl⟩ | ⟨lp, mp, hp, hm, hlt, h0, rfl, rfl⟩ |
      ⟨mp, st1, m1, no1, h0, hm, hgate', hb, hpm, hpn, hrec⟩
    · exact h0
    · obtain ⟨mp', hmp', hle⟩ := hgate m (List.mem_cons_self _ _) lp hp
      rw [hm] at hmp'
      injection hmp' with hmp'
      omega
    · have hma := hbook1 m (List.mem_cons_self _ _)
      have hfn := partiallyExecuteOrder_fields hpn
      refine ih (fun m' h' => hbook1 m' (List.mem_cons_of_mem _ h'))
        (fun m' h' => hgate m' (List.mem_cons_of_mem _ h')) ?_ ?_ hrec
      · have : (rest.length : Int) + 1 = ((m :: rest).length : Int) := by
          simp
        omega
      · omega

theorem sellLoop_full_fill {sId : TraderId} {tk : Ticker} {p : Option Int}
    {book : List Order} {st : Exchange} {no : Order} {st' : Exchange} {no' : Order}
    (hbook1 : ∀ m ∈ book, 1 ≤ m.amount)
    (hgate : ∀ m ∈ book, ∀ lp, p = some lp → ∃ mp, m.price = some mp ∧ lp ≤ mp)
    (hlen : no.amount ≤ (book.length : Int)) (hnn : 0 ≤ no.amount)
    (h : sellLoop sId tk p st no book = Except.ok (st', no')) : no'.amount = 0 := by
  induction book generalizing st no with
  | nil =>
    simp only [sellLoop, Except.ok.injEq, Prod.mk.injEq] at h
    rw [← h.2]
    simp only [List.length_nil, Nat.cast_zero] at hlen
    omega
  | cons m rest ih =>
    rcases sellLoop_cons_ok h with ⟨h0, rfl, rfl⟩ | ⟨lp, mp, hp, hm, hlt, h0, rfl, rfl⟩ |
      ⟨mp, st1, m1, no1, h0, hm, hgate', hb, hpm, hpn, hrec⟩
    · exact h0
    · obtain ⟨mp', hmp', hle⟩ := hgate m (List.mem_cons_self _ _) lp hp
      rw [hm] at hmp'
      injection hmp' with hmp'
      omega
    · have hma := hbook1 m (List.mem_cons_self _ _)
      have hfn := partiallyExecuteOrder_fields hpn
      refine ih (fun m' h' => hbook1 m' (List.mem_cons_of_mem _ h'))
        (fun m' h' => hgate m' (List.mem_cons_of_mem _ h')) ?_ ?_ hrec
      · have : (rest.length : Int) + 1 = ((m :: rest).length : Int) := by
          simp
        omega
      · omega

/-! ## Characterizations of the submission wrappers -/

theorem createLimitBuyOrder_of_error {st : Exchange} {tk : Ticker} {q : Int}
    {p : Option Int} {tid : TraderId} {e : String}
    (h : createLimitBuyOrderE st tk q p tid = Except.error e) :
    createLimitBuyOrder st tk q p tid =
      ({ st with
          orders := st.orders ++ [cancelledRow st tid tk q p OrderSide.BID]
          nextOid := st.nextOid + 1 },
        cancelledRow st tid tk q p OrderSide.BID) := by
  unfold createLimitBuyOrder cancelledRow
  rw [h]

theorem createLimitSellOrder_of_error {st : Exchange} {tk : Ticker} {q : Int}
    {p : Option Int} {tid : TraderId} {e : String}
    (h : createLimitSellOrderE st tk q p tid = Except.error e) :
    createLimitSellOrder st tk q p tid =
      ({ st with
          orders := st.orders ++ [cancelledRow st tid tk q p OrderSide.ASK]
          nextOid := st.nextOid + 1 },
        cancelledRow st tid tk q p OrderSide.ASK) := by
  unfold createLimitSellOrder cancelledRow
  rw [h]

theorem createLimitBuyOrder_of_ok {st : Exchange} {tk : Ticker} {q : Int}
    {p : Option Int} {tid : TraderId} {r : Exchange × Order}
    (h : createLimitBuyOrderE st tk q p tid = Except.ok r) :
    createLimitBuyOrder st tk q p tid = r := by
  unfold createLimitBuyOrder
  rw [h]

theorem createLimitSellOrder_of_ok {st : Exchange} {tk : Ticker} {q : Int}
    {p : Option Int} {tid : TraderId} {r : Exchange × Order}
    (h : createLimitSellOrderE st tk q p tid = Except.ok r) :
    createLimitSellOrder st tk q p tid = r := by
  unfold createLimitSellOrder
  rw [h]

theorem createLimitBuyOrderE_ok {st : Exchange} {tk : Ticker} {q : Int}
    {p : Option Int} {tid : TraderId} {st' : Exchange} {no' : Order}
    (h : createLimitBuyOrderE st tk q p tid = Except.ok (st', no')) :
    ∃ st1 st2,
      buyLoop tid tk p st (newOrderRow st tid tk q p OrderSide.BID)
          (getOrders st tk OrderSide.ASK q.toNat) = Except.ok (st1, no') ∧
        ((no'.status ≠ OrderStatus.EXECUTED ∧ ∃ pp, p = some pp ∧
            freezeBalance st1 tid BASE_CURRENCY_TICKER (no'.amount * pp) = Except.ok st2) ∨
          (no'.status = OrderStatus.EXECUTED ∧ st2 = st1)) ∧
        st' = { st2 with orders := st2.orders ++ [no'], nextOid := st2.nextOid + 1 } := by
  unfold createLimitBuyOrderE at h
  cases hl : buyLoop tid tk p st (newOrderRow st tid tk q p OrderSide.BID)
      (getOrders st tk OrderSide.ASK q.toNat) with
  | error e =>
    rw [hl] at h
    simp [bind, Except.bind] at h
  | ok r1 =>
    obtain ⟨st1, no1⟩ := r1
    rw [hl] at h
    simp only [bind, Except.bind] at h
    by_cases hex : no1.status = OrderStatus.EXECUTED
    · rw [if_neg (by simp [hex])] at h
      simp only [pure, Except.pure, Except.ok.injEq, Prod.mk.injEq] at h
      obtain ⟨h1, h2⟩ := h
      subst h2
      exact ⟨st1, st1, rfl, Or.inr ⟨hex, rfl⟩, h1.symm⟩
    · rw [if_pos (by simp [hex])] at h
      cases p with
      | none => simp at h
      | some pp =>
        dsimp only at h
        cases hf : freezeBalance st1 tid BASE_CURRENCY_TICKER (no1.amount * pp) with
        | error e =>
          rw [hf] at h
          simp at h
        | ok st2 =>
          rw [hf] at h
          simp only [pure, Except.pure, Except.ok.injEq, Prod.mk.injEq] at h
          obtain ⟨h1, h2⟩ := h
          subst h2
          exact ⟨st1, st2, rfl, Or.inl ⟨hex, pp, rfl, hf⟩, h1.symm⟩

theorem createLimitSellOrderE_ok {st : Exchange} {tk : Ticker} {q : Int}
    {p : Option Int} {tid : TraderId} {st' : Exchange} {no' : Order}
    (h : createLimitSellOrderE st tk q p tid = Except.ok (st', no')) :
    ∃ st1 st2,
      sellLoop tid tk p st (newOrderRow st tid tk q p OrderSide.ASK)
          (getOrders st tk OrderSide.BID q.toNat) = Except.ok (st1, no') ∧
        ((no'.status ≠ OrderStatus.EXECUTED ∧ (∃ pp, p = some pp) ∧
            freezeBalance st1 tid tk no'.amount = Except.ok st2) ∨
          (no'.status = OrderStatus.EXECUTED ∧ st2 = st1)) ∧
        st' = { st2 with orders := st2.orders ++ [no'], nextOid := st2.nextOid + 1 } := by
  unfold createLimitSellOrderE at h
  cases hl : sellLoop tid tk p st (newOrderRow st tid tk q p OrderSide.ASK)
      (getOrders st tk OrderSide.BID q.toNat) with
  | error e =>
    rw [hl] at h
    simp [bind, Except.bind] at h
  | ok r1 =>
    obtain ⟨st1, no1⟩ := r1
    rw [hl] at h
    simp only [bind, Except.bind] at h
    by_cases hex : no1.status = OrderStatus.EXECUTED
    · rw [if_neg (by simp [hex])] at h
      simp only [pure, Except.pure, Except.ok.injEq, Prod.mk.injEq] at h
      obtain ⟨h1, h2⟩ := h
      subst h2
      exact ⟨st1, st1, rfl, Or.inr ⟨hex, rfl⟩, h1.symm⟩
    · rw [if_pos (by simp [hex])] at h
      cases p with
      | none => simp at h
      | some pp =>
        dsimp only at h
        cases hf : freezeBalance st1 tid tk no1.amount with
        | error e =>
          rw [hf] at h
          simp at h
        | ok st2 =>
          rw [hf] at h
          simp only [pure, Except.pure, Except.ok.injEq, Prod.mk.injEq] at h
          obtain ⟨h1, h2⟩ := h
          subst h2
          exact ⟨st1, st2, rfl, Or.inl ⟨hex, ⟨pp, rfl⟩, hf⟩, h1.symm⟩

/-! ## C3: failed reservation rolls back atomically -/

/-- C3: if a submission raises (insufficient funds at a match or at the
remainder freeze), the transaction rolls back - balances, positions, trades
and pre-existing orders are unchanged - and the only persisted effect is a
terminal CANCELLED order with `amount` equal to the requested quantity and
`filled = 0`. -/
theorem insufficient_funds_rolls_back :
    (∀ (st : Exchange) (tk : Ticker) (q : Int) (p : Option Int) (tid : TraderId) (e : String),
      createLimitBuyOrderE st tk q p tid = Except.error e →
        (createLimitBuyOrder st tk q p tid).1.balances = st.balances ∧
          (createLimitBuyOrder st tk q p tid).1.positions = st.positions ∧
          (createLimitBuyOrder st tk q p tid).1.trades = st.trades ∧
          (createLimitBuyOrder st tk q p tid).1.orders =
            st.orders ++ [(createLimitBuyOrder st tk q p tid).2] ∧
          (createLimitBuyOrder st tk q p tid).2.status = OrderStatus.CANCELLED ∧
          (createLimitBuyOrder st tk q p tid).2.amount = q ∧
          (createLimitBuyOrder st tk q p tid).2.filled = 0) ∧
    (∀ (st : Exchange) (tk : Ticker) (q : Int) (p : Option Int) (tid : TraderId) (e : String),
      createLimitSellOrderE st tk q p tid = Except.error e →
        (createLimitSellOrder st tk q p tid).1.balances = st.balances ∧
          (createLimitSellOrder st tk q p tid).1.positions = st.positions ∧
          (createLimitSellOrder st tk q p tid).1.trades = st.trades ∧
          (createLimitSellOrder st tk q p tid).1.orders =
            st.orders ++ [(createLimitSellOrder st tk q p tid).2] ∧
          (createLimitSellOrder st tk q p tid).2.status = OrderStatus.CANCELLED ∧
          (createLimitSellOrder st tk q p tid).2.amount = q ∧
          (createLimitSellOrder st tk q p tid).2.filled = 0) := by
  constructor
  · intro st tk q p tid e h
    rw [createLimitBuyOrder_of_error h]
    exact ⟨rfl, rfl, rfl, rfl, rfl, rfl, rfl⟩
  · intro st tk q p tid e h
    rw [createLimitSellOrder_of_error h]
    exact ⟨rfl, rfl, rfl, rfl, rfl, rfl, rfl⟩

/-- Witness for C3 at the overdraft scenario of spec §8 (scenario 5): trader 1
with balance 100 submits BUY limit qty 10 at price 20. -/
theorem insufficient_funds_rolls_back_witness :
    (createLimitBuyOrder stPoor "AAA" 10 (some 20) 1).1.balances = stPoor.balances ∧
      (createLimitBuyOrder stPoor "AAA" 10 (some 20) 1).1.positions = stPoor.positions ∧
      (createLimitBuyOrder stPoor "AAA" 10 (some 20) 1).1.trades = stPoor.trades ∧
      (createLimitBuyOrder stPoor "AAA" 10 (some 20) 1).1.orders =
        stPoor.orders ++ [(createLimitBuyOrder stPoor "AAA" 10 (some 20) 1).2] ∧
      (createLimitBuyOrder stPoor "AAA" 10 (some 20) 1).2.status = OrderStatus.CANCELLED ∧
      (createLimitBuyOrder stPoor "AAA" 10 (some 20) 1).2.amount = 10 ∧
      (createLimitBuyOrder stPoor "AAA" 10 (some 20) 1).2.filled = 0 :=
  insufficient_funds_rolls_back.1 stPoor "AAA" 10 (some 20) 1
    "Trader not enough balance/instruments" rfl

/-! ## C4: market orders with an unfillable remainder -/

/-- C4 counterexample, at the literal state of spec §8 scenario 3: a market
BUY of qty 5 against a single resting ASK of 2 @ 50. The claim expects the
partial fill to persist (one trade, `filled = 2`, `amount = 3`, buyer debited
100); the code instead rolls the whole submission back: no trade persists,
the CANCELLED record has `filled = 0` and `amount = 5`, and the buyer's
balance is unchanged at 1000. -/
theorem market_partial_fill_cex :
    (createMarketBuyOrder stMarket "CCC" 5 1).2.status = OrderStatus.CANCELLED ∧
      (createMarketBuyOrder stMarket "CCC" 5 1).2.filled = 0 ∧
      (createMarketBuyOrder stMarket "CCC" 5 1).2.amount = 5 ∧
      (createMarketBuyOrder stMarket "CCC" 5 1).1.trades = [] ∧
      (createMarketBuyOrder stMarket "CCC" 5 1).1.balances 1 = 1000 ∧
      ¬((createMarketBuyOrder stMarket "CCC" 5 1).2.filled = 2 ∧
        (createMarketBuyOrder stMarket "CCC" 5 1).2.amount = 3 ∧
        (createMarketBuyOrder stMarket "CCC" 5 1).1.balances 1 = 900) := by
  exact ⟨by decide, by decide, by decide, by decide, by decide, by decide⟩

/-- C4 as the code behaves: a market submission (price = null) either executes
in full (EXECUTED, residual 0, `filled` = requested quantity) - so market
orders never rest on the book - or the whole submission, including any partial
fills, is rolled back and persisted as a CANCELLED record with `filled = 0`,
`amount` = requested quantity, leaving balances, positions and trades
untouched. -/
theorem market_order_executes_fully_or_rolls_back :
    (∀ (st : Exchange) (tk : Ticker) (q : Int) (tid : TraderId),
      ((createMarketBuyOrder st tk q tid).2.status = OrderStatus.EXECUTED ∧
        (createMarketBuyOrder st tk q tid).2.amount = 0 ∧
        (createMarketBuyOrder st tk q tid).2.filled = q) ∨
      ((createMarketBuyOrder st tk q tid).2.status = OrderStatus.CANCELLED ∧
        (createMarketBuyOrder st tk q tid).2.amount = q ∧
        (createMarketBuyOrder st tk q tid).2.filled = 0 ∧
        (createMarketBuyOrder st tk q tid).1.balances = st.balances ∧
        (createMarketBuyOrder st tk q tid).1.positions = st.positions ∧
        (createMarketBuyOrder st tk q tid).1.trades = st.trades ∧
        (createMarketBuyOrder st tk q tid).1.orders =
          st.orders ++ [(createMarketBuyOrder st tk q tid).2])) ∧
    (∀ (st : Exchange) (tk : Ticker) (q : Int) (tid : TraderId),
      ((createMarketSellOrder st tk q tid).2.status = OrderStatus.EXECUTED ∧
        (createMarketSellOrder st tk q tid).2.amount = 0 ∧
        (createMarketSellOrder st tk q tid).2.filled = q) ∨
      ((createMarketSellOrder st tk q tid).2.status = OrderStatus.CANCELLED ∧
        (createMarketSellOrder st tk q tid).2.amount = q ∧
        (createMarketSellOrder st tk q tid).2.filled = 0 ∧
        (createMarketSellOrder st tk q tid).1.balances = st.balances ∧
        (createMarketSellOrder st tk q tid).1.positions = st.positions ∧
        (createMarketSellOrder st tk q tid).1.trades = st.trades ∧
        (createMarketSellOrder st tk q tid).1.orders =
          st.orders ++ [(createMarketSellOrder st tk q tid).2])) := by
  constructor
  · intro st tk q tid
    unfold createMarketBuyOrder
    cases hE : createLimitBuyOrderE st tk q none tid with
    | error e =>
      right
      rw [createLimitBuyOrder_of_error hE]
      exact ⟨rfl, rfl, rfl, rfl, rfl, rfl, rfl⟩
    | ok r =>
      left
      obtain ⟨st', no'⟩ := r
      rw [createLimitBuyOrder_of_ok hE]
      obtain ⟨st1, st2, hl, halt, hst'⟩ := createLimitBuyOrderE_ok hE
      have hex : no'.status = OrderStatus.EXECUTED := by
        rcases halt with ⟨hne, pp, hpp, _⟩ | ⟨hex, _⟩
        · exact absurd hpp (by simp)
        · exact hex
      have hzero : no'.amount = 0 :=
        buyLoop_exec_zero hl (fun hE' => absurd hE' (by simp [newOrderRow])) hex
      have hsum := buyLoop_ok_sum hl
      simp only [newOrderRow] at hsum
      have hfq : no'.filled = q := by omega
      exact ⟨hex, hzero, hfq⟩
  · intro st tk q tid
    unfold createMarketSellOrder
    cases hE : createLimitSellOrderE st tk q none tid with
    | error e =>
      right
      rw [createLimitSellOrder_of_error hE]
      exact ⟨rfl, rfl, rfl, rfl, rfl, rfl, rfl⟩
    | ok r =>
      left
      obtain ⟨st', no'⟩ := r
      rw [createLimitSellOrder_of_ok hE]
      obtain ⟨st1, st2, hl, halt, hst'⟩ := createLimitSellOrderE_ok hE
      have hex : no'.status = OrderStatus.EXECUTED := by
        rcases halt with ⟨hne, ⟨pp, hpp⟩, _⟩ | ⟨hex, _⟩
        · exact absurd hpp (by simp)
        · exact hex
      have hzero : no'.amount = 0 :=
        sellLoop_exec_zero hl (fun hE' => absurd hE' (by simp [newOrderRow])) hex
      have hsum := sellLoop_ok_sum hl
      simp only [newOrderRow] at hsum
      have hfq : no'.filled = q := by omega
      exact ⟨hex, hzero, hfq⟩

/-! ## C5: amount + filled is the requested quantity -/

/-- C5: every partial execution step preserves `amount + filled`; for every
submission, the returned order satisfies `amount + filled = quantity`, and
every order row in the resulting store either descends from a pre-existing row
with the same id and the same `amount + filled`, or is the new row with
`amount + filled = quantity` - including the CANCELLED record of a failed
submission. -/
theorem order_amount_filled_conservation :
    (∀ (o : Order) (a : Int) (o' : Order), partiallyExecuteOrder o a = Except.ok o' →
      o'.amount + o'.filled = o.amount + o.filled) ∧
    (∀ (st : Exchange) (tk : Ticker) (q : Int) (p : Option Int) (tid : TraderId),
      (createLimitBuyOrder st tk q p tid).2.amount +
          (createLimitBuyOrder st tk q p tid).2.filled = q ∧
        ∀ x ∈ (createLimitBuyOrder st tk q p tid).1.orders,
          (∃ o ∈ st.orders, o.oid = x.oid ∧ x.amount + x.filled = o.amount + o.filled) ∨
            x.amount + x.filled = q) ∧
    (∀ (st : Exchange) (tk : Ticker) (q : Int) (p : Option Int) (tid : TraderId),
      (createLimitSellOrder st tk q p tid).2.amount +
          (createLimitSellOrder st tk q p tid).2.filled = q ∧
        ∀ x ∈ (createLimitSellOrder st tk q p tid).1.orders,
          (∃ o ∈ st.orders, o.oid = x.oid ∧ x.amount + x.filled = o.amount + o.filled) ∨
            x.amount + x.filled = q) := by
  refine ⟨?_, ?_, ?_⟩
  · intro o a o' h
    have := partiallyExecuteOrder_fields h
    omega
  · intro st tk q p tid
    cases hE : createLimitBuyOrderE st tk q p tid with
    | error e =>
      rw [createLimitBuyOrder_of_error hE]
      refine ⟨by simp [cancelledRow, newOrderRow], ?_⟩
      intro x hx
      rcases List.mem_append.mp hx with hx | hx
      · exact Or.inl ⟨x, hx, rfl, rfl⟩
      · simp only [List.mem_singleton] at hx
        subst hx
        exact Or.inr (by simp [cancelledRow, newOrderRow])
    | ok r =>
      obtain ⟨st', no'⟩ := r
      rw [createLimitBuyOrder_of_ok hE]
      obtain ⟨st1, st2, hl, halt, hst'⟩ := createLimitBuyOrderE_ok hE
      have hsum := buyLoop_ok_sum hl
      simp only [newOrderRow] at hsum
      have horders2 : st2.orders = st1.orders := by
        rcases halt with ⟨_, pp, hpp, hf⟩ | ⟨_, rfl⟩
        · rcases freezeBalance_ok hf with ⟨_, _, rfl⟩ | ⟨_, _, rfl⟩ <;> rfl
        · rfl
      have hinv := buyLoop_orders_sum st.orders
        (fun m hm => ⟨m, (getOrders_subset hm).1, rfl, rfl⟩)
        (fun x hx => ⟨x, hx, rfl, rfl⟩) hl
      have hret : no'.amount + no'.filled = q := by omega
      refine ⟨hret, ?_⟩
      intro x hx
      rw [hst'] at hx
      simp only at hx
      rw [horders2] at hx
      rcases List.mem_append.mp hx with hx | hx
      · exact Or.inl (hinv x hx)
      · simp only [List.mem_singleton] at hx
        subst hx
        exact Or.inr (by omega)
  · intro st tk q p tid
    cases hE : createLimitSellOrderE st tk q p tid with
    | error e =>
      rw [createLimitSellOrder_of_error hE]
      refine ⟨by simp [cancelledRow, newOrderRow], ?_⟩
      intro x hx
      rcases List.mem_append.mp hx with hx | hx
      · exact Or.inl ⟨x, hx, rfl, rfl⟩
      · simp only [List.mem_singleton] at hx
        subst hx
        exact Or.inr (by simp [cancelledRow, newOrderRow])
    | ok r =>
      obtain ⟨st', no'⟩ := r
      rw [createLimitSellOrder_of_ok hE]
      obtain ⟨st1, st2, hl, halt, hst'⟩ := createLimitSellOrderE_ok hE
      have hsum := sellLoop_ok_sum hl
      simp only [newOrderRow] at hsum
      have horders2 : st2.orders = st1.orders := by
        rcases halt with ⟨_, _, hf⟩ | ⟨_, rfl⟩
        · rcases freezeBalance_ok hf with ⟨_, _, rfl⟩ | ⟨_, _, rfl⟩ <;> rfl
        · rfl
      have hinv := sellLoop_orders_sum st.orders
        (fun m hm => ⟨m, (getOrders_subset hm).1, rfl, rfl⟩)
        (fun x hx => ⟨x, hx, rfl, rfl⟩) hl
      have hret : no'.amount + no'.filled = q := by omega
      refine ⟨hret, ?_⟩
      intro x hx
      rw [hst'] at hx
      simp only at hx
      rw [horders2] at hx
      rcases List.mem_append.mp hx with hx | hx
      · exact Or.inl (hinv x hx)
      · simp only [List.mem_singleton] at hx
        subst hx
        exact Or.inr (by omega)

/-- Witness for C5's partial-execution component: filling 2 of a 5-unit order
yields amount 3, filled 2, preserving the sum. -/
theorem order_amount_filled_conservation_witness :
    ({ oid := 1, trader_id := 2, symbol_ticker := "AAA", amount := 3, filled := 2,
       price := some 100, direction := OrderSide.ASK,
       status := OrderStatus.PARTIALLY_EXECUTED, created_at := 0 } : Order).amount +
        ({ oid := 1, trader_id := 2, symbol_ticker := "AAA", amount := 3, filled := 2,
           price := some 100, direction := OrderSide.ASK,
           status := OrderStatus.PARTIALLY_EXECUTED, created_at := 0 } : Order).filled =
      ({ oid := 1, trader_id := 2, symbol_ticker := "AAA", amount := 5, filled := 0,
         price := some 100, direction := OrderSide.ASK,
         status := OrderStatus.NEW, created_at := 0 } : Order).amount +
        ({ oid := 1, trader_id := 2, symbol_ticker := "AAA", amount := 5, filled := 0,
           price := some 100, direction := OrderSide.ASK,
           status := OrderStatus.NEW, created_at := 0 } : Order).filled :=
  order_amount_filled_conservation.1
    { oid := 1, trader_id := 2, symbol_ticker := "AAA", amount := 5, filled := 0,
      price := some 100, direction := OrderSide.ASK,
      status := OrderStatus.NEW, created_at := 0 } 2
    { oid := 1, trader_id := 2, symbol_ticker := "AAA", amount := 3, filled := 2,
      price := some 100, direction := OrderSide.ASK,
      status := OrderStatus.PARTIALLY_EXECUTED, created_at := 0 } rfl

/-! ## C10: fetching only the first q candidates never under-fills -/

/-- C10: the candidate fetch is limited to the first `quantity` opposite-side
orders. If the book supplied a full batch of `quantity` candidates (the fetch
is not short) and no fetched candidate trips the taker's price gate - for a
BID taker `priceLe m.price p` (vacuously true when `p = none`: a market taker
never gates on price), for an ASK taker `priceLe p m.price` whenever the
taker is priced (`p = some lp`; a market ASK has no gate at all) - then a
successful matching loop always drives the remainder to zero: every active
order holds at least one unit (well-formedness), so each visited candidate
fills at least one unit and `quantity` candidates suffice. Hence no matchable
resting order beyond the first `quantity` can be missed. -/
theorem fetch_limit_no_underfill :
    (∀ (st : Exchange) (tk : Ticker) (q : Int) (p : Option Int) (tid : TraderId)
        (st' : Exchange) (no' : Order),
      WF st →
      ((getOrders st tk OrderSide.ASK q.toNat).length : Int) = q →
      (∀ m ∈ getOrders st tk OrderSide.ASK q.toNat, priceLe m.price p = true) →
      buyLoop tid tk p st (newOrderRow st tid tk q p OrderSide.BID)
          (getOrders st tk OrderSide.ASK q.toNat) = Except.ok (st', no') →
      no'.amount = 0) ∧
    (∀ (st : Exchange) (tk : Ticker) (q : Int) (p : Option Int) (tid : TraderId)
        (st' : Exchange) (no' : Order),
      WF st →
      ((getOrders st tk OrderSide.BID q.toNat).length : Int) = q →
      (∀ m ∈ getOrders st tk OrderSide.BID q.toNat,
        ∀ lp, p = some lp → priceLe (some lp) m.price = true) →
      sellLoop tid tk p st (newOrderRow st tid tk q p OrderSide.ASK)
          (getOrders st tk OrderSide.BID q.toNat) = Except.ok (st', no') →
      no'.amount = 0) := by
  constructor
  · intro st tk q p tid st' no' hwf hlen hgate h
    refine buyLoop_full_fill ?_ ?_ ?_ ?_ h
    · intro m hm
      obtain ⟨hmem, hact, _, _⟩ := getOrders_subset hm
      exact (wfOrder_active ((hwf.1 m hmem).1) hact).1
    · intro m hm lp hp
      have hg := hgate m hm
      rw [hp] at hg
      obtain ⟨-, mp, hmp, -⟩ := (wfOrder_active ((hwf.1 m (getOrders_subset hm).1).1)
        (getOrders_subset hm).2.1)
      refine ⟨mp, hmp, ?_⟩
      rw [hmp] at hg
      simpa [priceLe] using hg
    · simpa [newOrderRow] using le_of_eq hlen.symm
    · simp only [newOrderRow]
      omega
  · intro st tk q p tid st' no' hwf hlen hgate h
    refine sellLoop_full_fill ?_ ?_ ?_ ?_ h
    · intro m hm
      obtain ⟨hmem, hact, _, _⟩ := getOrders_subset hm
      exact (wfOrder_active ((hwf.1 m hmem).1) hact).1
    · intro m hm lp hp
      have hg := hgate m hm lp hp
      obtain ⟨-, mp, hmp, -⟩ := (wfOrder_active ((hwf.1 m (getOrders_subset hm).1).1)
        (getOrders_subset hm).2.1)
      refine ⟨mp, hmp, ?_⟩
      rw [hmp] at hg
      simpa [priceLe] using hg
    · simpa [newOrderRow] using le_of_eq hlen.symm
    · simp only [newOrderRow]
      omega

/-- Witness for C10, both sides at a full batch of one candidate. BID taker:
quantity 1 at limit 20 against `stAskBook`'s ASK of 10 units at 5 - one
candidate fetched, the gate passes, the loop fully fills. ASK taker: a market
SELL (price `none`, so no gate at all) of quantity 1 against `stBidBook`'s BID
of 10 units at 5 - again one candidate and a full fill. -/
theorem fetch_limit_no_underfill_witness :
    WF stAskBook ∧
      ((getOrders stAskBook "AAA" OrderSide.ASK (1 : Int).toNat).length : Int) = 1 ∧
      (∀ m ∈ getOrders stAskBook "AAA" OrderSide.ASK (1 : Int).toNat,
        priceLe m.price (some 20) = true) ∧
      ({ oid := 2, trader_id := 1, symbol_ticker := "AAA", amount := 0, filled := 1,
         price := some 20, direction := OrderSide.BID, status := OrderStatus.EXECUTED,
         created_at := 2 } : Order).amount = 0 ∧
      WF stBidBook ∧
      ((getOrders stBidBook "AAA" OrderSide.BID (1 : Int).toNat).length : Int) = 1 ∧
      ({ oid := 2, trader_id := 1, symbol_ticker := "AAA", amount := 0, filled := 1,
         price := none, direction := OrderSide.ASK, status := OrderStatus.EXECUTED,
         created_at := 2 } : Order).amount = 0 :=
  ⟨by decide, by decide, by decide,
    fetch_limit_no_underfill.1 stAskBook "AAA" 1 (some 20) 1
      { stAskBook with
          balances := updBal (updBal stAskBook.balances 2 5) 1 (-5)
          positions := updPos stAskBook.positions 1 "AAA" 1
          trades := [{ trader_from_id := 2, trader_to_id := 1, symbol_ticker := "AAA",
                       amount := 1, price := 5 }]
          orders := setOrder stAskBook.orders
            { oid := 1, trader_id := 2, symbol_ticker := "AAA", amount := 9, filled := 1,
              price := some 5, direction := OrderSide.ASK,
              status := OrderStatus.PARTIALLY_EXECUTED, created_at := 0 } }
      { oid := 2, trader_id := 1, symbol_ticker := "AAA", amount := 0, filled := 1,
        price := some 20, direction := OrderSide.BID, status := OrderStatus.EXECUTED,
        created_at := 2 }
      (by decide) (by decide) (by decide) rfl,
    by decide, by decide,
    fetch_limit_no_underfill.2 stBidBook "AAA" 1 none 1
      { stBidBook with
          balances := updBal stBidBook.balances 1 5
          positions := updPos (updPos stBidBook.positions 1 "AAA" (-1)) 2 "AAA" 1
          trades := [{ trader_from_id := 1, trader_to_id := 2, symbol_ticker := "AAA",
                       amount := 1, price := 5 }]
          orders := setOrder stBidBook.orders
            { oid := 1, trader_id := 2, symbol_ticker := "AAA", amount := 9, filled := 1,
              price := some 5, direction := OrderSide.BID,
              status := OrderStatus.PARTIALLY_EXECUTED, created_at := 0 } }
      { oid := 2, trader_id := 1, symbol_ticker := "AAA", amount := 0, filled := 1,
        price := none, direction := OrderSide.ASK, status := OrderStatus.EXECUTED,
        created_at := 2 }
      (by decide) (by decide) (fun m _ lp hlp => Option.noConfusion hlp) rfl⟩

/-! ## C7: cancellability -/

theorem mem_unique_oid {l : List Order}
    (hu : l.Pairwise (fun a b => a.oid ≠ b.oid)) {o o' : Order}
    (ho : o ∈ l) (ho' : o' ∈ l) (h : o.oid = o'.oid) : o = o' := by
  induction l with
  | nil => cases ho
  | cons x xs ih =>
    obtain ⟨hhead, htail⟩ := List.pairwise_cons.mp hu
    rcases List.mem_cons.mp ho with h1 | h1
    · rcases List.mem_cons.mp ho' with h2 | h2
      · rw [h1, h2]
      · subst h1
        exact absurd h (hhead o' h2)
    · rcases List.mem_cons.mp ho' with h2 | h2
      · subst h2
        exact absurd h.symm (hhead o h1)
      · exact ih htail h1 h2

theorem changeBalance_isOk {st : Exchange} {tid : TraderId} {tk : Ticker} {a : Int}
    (hb : 0 ≤ st.balances tid + a) (hp : 0 ≤ st.positions tid tk + a) :
    ∃ st1, changeBalance st tid tk a = Except.ok st1 := by
  unfold changeBalance
  split
  · rw [if_neg (by omega)]
    exact ⟨_, rfl⟩
  · rw [if_neg (by omega)]
    exact ⟨_, rfl⟩

/-- C7: `cancel_order` succeeds (returns a cancelled order rather than `None`
or an error) exactly when an order with that id owned by that trader exists,
its status is NEW, and its price is non-null. A status in
{EXECUTED, PARTIALLY_EXECUTED, CANCELLED} is rejected as terminal (partially
executed orders are deliberately not cancellable for the residual) and a
null-price (market) order is rejected as non-cancellable. -/
theorem cancel_success_iff (st : Exchange) (orderId : Nat) (tid : TraderId)
    (hwf : WF st) (hnn : Nonneg st) :
    (∃ r, cancelOrder st orderId tid = Except.ok (some r)) ↔
      ∃ o ∈ st.orders, o.oid = orderId ∧ o.trader_id = tid ∧
        o.status = OrderStatus.NEW ∧ o.price.isSome = true := by
  constructor
  · rintro ⟨r, hr⟩
    unfold cancelOrder at hr
    cases hf : st.orders.find?
        (fun o => decide (o.oid = orderId) && decide (o.trader_id = tid)) with
    | none =>
      rw [hf] at hr
      simp at hr
    | some o =>
      rw [hf] at hr
      dsimp only at hr
      have hmem := List.mem_of_find?_eq_some hf
      have hpred := List.find?_some hf
      simp only [Bool.and_eq_true, decide_eq_true_eq] at hpred
      by_cases hfin : isFinal o = true
      · rw [if_pos hfin] at hr
        simp at hr
      · rw [if_neg hfin] at hr
        have hnew : o.status = OrderStatus.NEW := by
          unfold isFinal at hfin
          cases hst : o.status <;> simp [hst] at hfin ⊢
        cases hop : o.price with
        | none =>
          rw [hop] at hr
          simp at hr
        | some pp =>
          exact ⟨o, hmem, hpred.1, hpred.2, hnew, by simp [hop]⟩
  · rintro ⟨o, hmem, hoid, htid, hnew, hpr⟩
    have hfindSome : (st.orders.find?
        (fun o => decide (o.oid = orderId) && decide (o.trader_id = tid))).isSome := by
      rw [List.find?_isSome]
      exact ⟨o, hmem, by simp [hoid, htid]⟩
    obtain ⟨o', hf⟩ := Option.isSome_iff_exists.mp hfindSome
    have hmem' := List.mem_of_find?_eq_some hf
    have hpred' := List.find?_some hf
    simp only [Bool.and_eq_true, decide_eq_true_eq] at hpred'
    have hoo' : o = o' := mem_unique_oid hwf.2 hmem hmem' (by rw [hoid, hpred'.1])
    subst hoo'
    obtain ⟨ham, pp, hpp, hppos⟩ := wfOrder_active (hwf.1 o hmem).1 (by simp [isActive, hnew])
    unfold cancelOrder
    rw [hf]
    dsimp only
    rw [if_neg (by simp [isFinal, hnew])]
    rw [hpp]
    dsimp only
    cases hdir : o.direction with
    | ASK =>
      dsimp only
      obtain ⟨st1, hcb⟩ := @changeBalance_isOk st o.trader_id o.symbol_ticker o.amount
        (by have := hnn.1 o.trader_id; omega)
        (by have := hnn.2 o.trader_id o.symbol_ticker; omega)
      rw [hcb]
      simp only [bind, Except.bind]
      exact ⟨_, rfl⟩
    | BID =>
      dsimp only
      have hprod : 0 ≤ o.amount * pp := mul_nonneg (by omega) (le_of_lt hppos)
      obtain ⟨st1, hcb⟩ := @changeBalance_isOk st o.trader_id BASE_CURRENCY_TICKER
        (o.amount * pp)
        (by have := hnn.1 o.trader_id; omega)
        (by have := hnn.2 o.trader_id BASE_CURRENCY_TICKER; omega)
      rw [hcb]
      simp only [bind, Except.bind]
      exact ⟨_, rfl⟩

theorem stRich_nonneg : Nonneg stRich := by
  constructor
  · intro t
    dsimp only [stRich]
    split <;> decide
  · intro t s
    dsimp only [stRich]
    split <;> decide

/-- Witness for C7: trader 2's resting NEW limit ASK in `stRich` is
cancellable. -/
theorem cancel_success_iff_witness :
    ∃ r, cancelOrder stRich 1 2 = Except.ok (some r) :=
  (cancel_success_iff stRich 1 2 (by decide) stRich_nonneg).mpr
    ⟨{ oid := 1, trader_id := 2, symbol_ticker := "AAA", amount := 5, filled := 0,
       price := some 100, direction := OrderSide.ASK, status := OrderStatus.NEW,
       created_at := 0 },
      by decide, by decide, by decide, by decide, by decide⟩

/-! ## C8: submit then cancel restores the trader -/

theorem setOrder_append (l1 l2 : List Order) (o' : Order) :
    setOrder (l1 ++ l2) o' = setOrder l1 o' ++ setOrder l2 o' := by
  unfold setOrder
  exact List.map_append _ _ _

theorem setOrder_skip {l : List Order} {o' : Order}
    (h : ∀ x ∈ l, x.oid ≠ o'.oid) : setOrder l o' = l := by
  induction l with
  | nil => rfl
  | cons x xs ih =>
    unfold setOrder at ih ⊢
    simp only [List.map_cons]
    rw [if_neg (h x (List.mem_cons_self _ _)), ih (fun y hy => h y (List.mem_cons_of_mem _ hy))]

theorem updBal_cancel (bal : TraderId → Int) (t : TraderId) (d : Int) :
    updBal (updBal bal t (-d)) t d = bal := by
  funext t'
  simp only [updBal]
  by_cases h : t' = t <;> simp [h]

theorem updPos_cancel (pos : TraderId → Ticker → Int) (t : TraderId) (s : Ticker) (d : Int) :
    updPos (updPos pos t s (-d)) t s d = pos := by
  funext t' s'
  simp only [updPos]
  by_cases h : t' = t ∧ s' = s <;> simp [h]

/-- Cancelling a freshly persisted NEW limit order: the row is found at the
end of the order table, passes the terminal and market checks, and the
refund's `__change_balance` result is threaded through. -/
theorem cancelOrder_fresh_new {stA : Exchange} {l : List Order} {no : Order}
    (horders : stA.orders = l ++ [no])
    (hfresh : ∀ x ∈ l, x.oid ≠ no.oid)
    (hnew : no.status = OrderStatus.NEW)
    {pp : Int} (hpp : no.price = some pp)
    {stc : Exchange}
    (hcb : (match no.direction with
            | OrderSide.ASK => changeBalance stA no.trader_id no.symbol_ticker no.amount
            | OrderSide.BID =>
              changeBalance stA no.trader_id BASE_CURRENCY_TICKER (no.amount * pp)) =
        Except.ok stc) :
    cancelOrder stA no.oid no.trader_id =
      Except.ok (some
        ({ stc with orders := setOrder stc.orders { no with status := OrderStatus.CANCELLED } },
          { no with status := OrderStatus.CANCELLED })) := by
  have hfind : (stA.orders.find? fun o =>
      decide (o.oid = no.oid) && decide (o.trader_id = no.trader_id)) = some no := by
    rw [horders, List.find?_append]
    have h1 : (l.find? fun o =>
        decide (o.oid = no.oid) && decide (o.trader_id = no.trader_id)) = none := by
      rw [List.find?_eq_none]
      intro x hx
      simp [hfresh x hx]
    rw [h1]
    simp [List.find?]
  unfold cancelOrder
  rw [hfind]
  dsimp only
  rw [if_neg (by simp [isFinal, hnew])]
  rw [hpp]
  dsimp only
  cases hdir : no.direction with
  | ASK =>
    rw [hdir] at hcb
    dsimp only at hcb
    rw [hcb]
    simp only [bind, Except.bind]
  | BID =>
    rw [hdir] at hcb
    dsimp only at hcb
    rw [hcb]
    simp only [bind, Except.bind]

theorem changeBalance_base_ok {st : Exchange} {tid : TraderId} {a : Int}
    (h : 0 ≤ st.balances tid + a) :
    changeBalance st tid BASE_CURRENCY_TICKER a =
      Except.ok { st with balances := updBal st.balances tid a } := by
  unfold changeBalance
  rw [if_pos rfl, if_neg (by omega)]

theorem changeBalance_pos_ok {st : Exchange} {tid : TraderId} {tk : Ticker} {a : Int}
    (htk : tk ≠ BASE_CURRENCY_TICKER) (h : 0 ≤ st.positions tid tk + a) :
    changeBalance st tid tk a =
      Except.ok { st with positions := updPos st.positions tid tk a } := by
  unfold changeBalance
  rw [if_neg htk, if_neg (by omega)]

/-- C8: a limit order that rests without matching anything (its persisted
status is still NEW) can be cancelled immediately, and the cancellation
restores the trader's balances and positions exactly as they were before the
submission: the BID refund returns the `amount * price` cash that submission
froze, the ASK refund returns the `amount` units of inventory, no other
trader state changes, and the only residue is the CANCELLED order record. -/
theorem submit_cancel_roundtrip (st : Exchange) (tk : Ticker) (q p : Int)
    (tid : TraderId) (hwf : WF st) (hq : 0 < q) (hp : 0 < p) :
    ((createLimitBuyOrder st tk q (some p) tid).2.status = OrderStatus.NEW →
      ∃ st2 o',
        cancelOrder (createLimitBuyOrder st tk q (some p) tid).1
            (createLimitBuyOrder st tk q (some p) tid).2.oid tid =
          Except.ok (some (st2, o')) ∧
        st2.balances = st.balances ∧ st2.positions = st.positions ∧
        st2.trades = st.trades ∧ st2.orders = st.orders ++ [o'] ∧
        o' = { (createLimitBuyOrder st tk q (some p) tid).2 with
               status := OrderStatus.CANCELLED }) ∧
    ((createLimitSellOrder st tk q (some p) tid).2.status = OrderStatus.NEW →
      ∃ st2 o',
        cancelOrder (createLimitSellOrder st tk q (some p) tid).1
            (createLimitSellOrder st tk q (some p) tid).2.oid tid =
          Except.ok (some (st2, o')) ∧
        st2.balances = st.balances ∧ st2.positions = st.positions ∧
        st2.trades = st.trades ∧ st2.orders = st.orders ++ [o'] ∧
        o' = { (createLimitSellOrder st tk q (some p) tid).2 with
               status := OrderStatus.CANCELLED }) := by
  have hqp : 0 ≤ q * p := mul_nonneg (le_of_lt hq) (le_of_lt hp)
  have hfreshB : ∀ x ∈ st.orders,
      x.oid ≠ (newOrderRow st tid tk q (some p) OrderSide.BID).oid := fun x hx => by
    have := (hwf.1 x hx).2
    simp only [newOrderRow]
    omega
  have hfreshA : ∀ x ∈ st.orders,
      x.oid ≠ (newOrderRow st tid tk q (some p) OrderSide.ASK).oid := fun x hx => by
    have := (hwf.1 x hx).2
    simp only [newOrderRow]
    omega
  have hfreshBC : ∀ x ∈ st.orders,
      x.oid ≠ ({ newOrderRow st tid tk q (some p) OrderSide.BID with
        status := OrderStatus.CANCELLED } : Order).oid := fun x hx => by
    have := (hwf.1 x hx).2
    simp only [newOrderRow]
    omega
  have hfreshAC : ∀ x ∈ st.orders,
      x.oid ≠ ({ newOrderRow st tid tk q (some p) OrderSide.ASK with
        status := OrderStatus.CANCELLED } : Order).oid := fun x hx => by
    have := (hwf.1 x hx).2
    simp only [newOrderRow]
    omega
  constructor
  · intro hNEW
    cases hE : createLimitBuyOrderE st tk q (some p) tid with
    | error e =>
      rw [createLimitBuyOrder_of_error hE] at hNEW
      simp [cancelledRow, newOrderRow] at hNEW
    | ok r =>
      obtain ⟨st', no'⟩ := r
      rw [createLimitBuyOrder_of_ok hE] at hNEW ⊢
      obtain ⟨st1, st2N, hl, halt, hst'⟩ := createLimitBuyOrderE_ok hE
      obtain ⟨hst1, hno⟩ := buyLoop_no_match hl hNEW
      subst hno
      rcases halt with ⟨hne, pp, hpps, hf⟩ | ⟨hexec, -⟩
      · injection hpps with hpps
        subst hpps
        rw [hst1] at hf
        rcases freezeBalance_ok hf with ⟨-, hcheck, hst2N⟩ | ⟨hbad, -, -⟩
        · subst hst2N
          subst hst'
          have hcb : changeBalance
              { balances := updBal st.balances tid
                  (-((newOrderRow st tid tk q (some p) OrderSide.BID).amount * p)),
                positions := st.positions,
                orders := st.orders ++ [newOrderRow st tid tk q (some p) OrderSide.BID],
                trades := st.trades, nextOid := st.nextOid + 1 }
              tid BASE_CURRENCY_TICKER
              ((newOrderRow st tid tk q (some p) OrderSide.BID).amount * p) =
              Except.ok
              { balances := updBal (updBal st.balances tid
                  (-((newOrderRow st tid tk q (some p) OrderSide.BID).amount * p))) tid
                  ((newOrderRow st tid tk q (some p) OrderSide.BID).amount * p),
                positions := st.positions,
                orders := st.orders ++ [newOrderRow st tid tk q (some p) OrderSide.BID],
                trades := st.trades, nextOid := st.nextOid + 1 } := by
            apply changeBalance_base_ok
            simp only [newOrderRow] at hcheck ⊢
            simp [updBal]
            omega
          refine ⟨_, _, cancelOrder_fresh_new rfl hfreshB rfl rfl hcb,
            ?_, rfl, rfl, ?_, rfl⟩
          · exact updBal_cancel st.balances tid
              ((newOrderRow st tid tk q (some p) OrderSide.BID).amount * p)
          · show setOrder (st.orders ++ [newOrderRow st tid tk q (some p) OrderSide.BID])
              { newOrderRow st tid tk q (some p) OrderSide.BID with
                status := OrderStatus.CANCELLED } = _
            rw [setOrder_append, setOrder_skip hfreshBC]
            unfold setOrder
            simp [newOrderRow]
        · exact absurd rfl hbad
      · simp [newOrderRow] at hexec
  · intro hNEW
    cases hE : createLimitSellOrderE st tk q (some p) tid with
    | error e =>
      rw [createLimitSellOrder_of_error hE] at hNEW
      simp [cancelledRow, newOrderRow] at hNEW
    | ok r =>
      obtain ⟨st', no'⟩ := r
      rw [createLimitSellOrder_of_ok hE] at hNEW ⊢
      obtain ⟨st1, st2N, hl, halt, hst'⟩ := createLimitSellOrderE_ok hE
      obtain ⟨hst1, hno⟩ := sellLoop_no_match hl hNEW
      subst hno
      rcases halt with ⟨hne, -, hf⟩ | ⟨hexec, -⟩
      · rw [hst1] at hf
        rcases freezeBalance_ok hf with ⟨htkB, hcheck, hst2N⟩ | ⟨htkB, hcheck, hst2N⟩
        · -- the instrument ticker is the base currency ticker
          subst hst2N
          subst hst'
          have hcb : changeBalance
              { balances := updBal st.balances tid
                  (-(newOrderRow st tid tk q (some p) OrderSide.ASK).amount),
                positions := st.positions,
                orders := st.orders ++ [newOrderRow st tid tk q (some p) OrderSide.ASK],
                trades := st.trades, nextOid := st.nextOid + 1 }
              tid tk
              (newOrderRow st tid tk q (some p) OrderSide.ASK).amount =
              Except.ok
              { balances := updBal (updBal st.balances tid
                  (-(newOrderRow st tid tk q (some p) OrderSide.ASK).amount)) tid
                  (newOrderRow st tid tk q (some p) OrderSide.ASK).amount,
                positions := st.positions,
                orders := st.orders ++ [newOrderRow st tid tk q (some p) OrderSide.ASK],
                trades := st.trades, nextOid := st.nextOid + 1 } := by
            subst htkB
            apply changeBalance_base_ok
            simp only [newOrderRow] at hcheck ⊢
            simp [updBal]
            omega
          refine ⟨_, _, cancelOrder_fresh_new rfl hfreshA rfl rfl hcb,
            ?_, rfl, rfl, ?_, rfl⟩
          · exact updBal_cancel st.balances tid
              (newOrderRow st tid tk q (some p) OrderSide.ASK).amount
          · show setOrder (st.orders ++ [newOrderRow st tid tk q (some p) OrderSide.ASK])
              { newOrderRow st tid tk q (some p) OrderSide.ASK with
                status := OrderStatus.CANCELLED } = _
            rw [setOrder_append, setOrder_skip hfreshAC]
            unfold setOrder
            simp [newOrderRow]
        · -- ordinary instrument: inventory was frozen
          subst hst2N
          subst hst'
          have hcb : changeBalance
              { balances := st.balances,
                positions := updPos st.positions tid tk
                  (-(newOrderRow st tid tk q (some p) OrderSide.ASK).amount),
                orders := st.orders ++ [newOrderRow st tid tk q (some p) OrderSide.ASK],
                trades := st.trades, nextOid := st.nextOid + 1 }
              tid tk
              (newOrderRow st tid tk q (some p) OrderSide.ASK).amount =
              Except.ok
              { balances := st.balances,
                positions := updPos (updPos st.positions tid tk
                  (-(newOrderRow st tid tk q (some p) OrderSide.ASK).amount)) tid tk
                  (newOrderRow st tid tk q (some p) OrderSide.ASK).amount,
                orders := st.orders ++ [newOrderRow st tid tk q (some p) OrderSide.ASK],
                trades := st.trades, nextOid := st.nextOid + 1 } := by
            apply changeBalance_pos_ok htkB
            simp only [newOrderRow] at hcheck ⊢
            simp [updPos]
            omega
          refine ⟨_, _, cancelOrder_fresh_new rfl hfreshA rfl rfl hcb,
            rfl, ?_, rfl, ?_, rfl⟩
          · exact updPos_cancel st.positions tid tk
              (newOrderRow st tid tk q (some p) OrderSide.ASK).amount
          · show setOrder (st.orders ++ [newOrderRow st tid tk q (some p) OrderSide.ASK])
              { newOrderRow st tid tk q (some p) OrderSide.ASK with
                status := OrderStatus.CANCELLED } = _
            rw [setOrder_append, setOrder_skip hfreshAC]
            unfold setOrder
            simp [newOrderRow]
      · simp [newOrderRow] at hexec

/-- Witness for C8: trader 1 (balance 100) submits BUY limit qty 2 @ 10 into
an empty book; the order rests NEW and cancelling it restores the store. -/
theorem submit_cancel_roundtrip_witness :
    ∃ st2 o',
      cancelOrder (createLimitBuyOrder stPoor "AAA" 2 (some 10) 1).1
          (createLimitBuyOrder stPoor "AAA" 2 (some 10) 1).2.oid 1 =
        Except.ok (some (st2, o')) ∧
      st2.balances = stPoor.balances ∧ st2.positions = stPoor.positions ∧
      st2.trades = stPoor.trades ∧ st2.orders = stPoor.orders ++ [o'] ∧
      o' = { (createLimitBuyOrder stPoor "AAA" 2 (some 10) 1).2 with
             status := OrderStatus.CANCELLED } :=
  (submit_cancel_roundtrip stPoor "AAA" 2 10 1 (by decide) (by decide) (by decide)).1
    (by decide)

/-! ## C6: committed balances and positions stay non-negative -/

theorem changeBalance_nonneg {st : Exchange} {tid : TraderId} {tk : Ticker} {a : Int}
    {st1 : Exchange} (hnn : Nonneg st) (h : changeBalance st tid tk a = Except.ok st1) :
    Nonneg st1 := by
  rcases changeBalance_ok h with ⟨-, hchk, rfl⟩ | ⟨-, hchk, rfl⟩
  · refine ⟨?_, hnn.2⟩
    intro t
    have h1 := hnn.1 t
    simp only [updBal]
    split
    · next ht => rw [ht]; omega
    · exact h1
  · refine ⟨hnn.1, ?_⟩
    intro t s
    have h1 := hnn.2 t s
    simp only [updPos]
    split
    · next ht => rw [ht.1, ht.2]; omega
    · exact h1

theorem freezeBalance_nonneg {st : Exchange} {tid : TraderId} {tk : Ticker} {a : Int}
    {st1 : Exchange} (hnn : Nonneg st) (h : freezeBalance st tid tk a = Except.ok st1) :
    Nonneg st1 := by
  rcases freezeBalance_ok h with ⟨-, hchk, rfl⟩ | ⟨-, hchk, rfl⟩
  · refine ⟨?_, hnn.2⟩
    intro t
    have h1 := hnn.1 t
    simp only [updBal]
    split
    · next ht => rw [ht]; omega
    · exact h1
  · refine ⟨hnn.1, ?_⟩
    intro t s
    have h1 := hnn.2 t s
    simp only [updPos]
    split
    · next ht => rw [ht.1, ht.2]; omega
    · exact h1

theorem getOrders_wf_book {st : Exchange} (hwf : WF st) {tk : Ticker} {dir : OrderSide}
    {limit : Nat} : ∀ m ∈ getOrders st tk dir limit,
      1 ≤ m.amount ∧ ∃ mp, m.price = some mp ∧ 0 < mp := fun m hm =>
  wfOrder_active ((hwf.1 m (getOrders_subset hm).1).1) (getOrders_subset hm).2.1

/-- C6: every committed operation leaves every cash balance and every position
quantity non-negative; an adjustment that would drive a value negative raises
instead, leaving the store unchanged. Covers admin deposit/withdraw
(`change_trader_balance`), order cancellation, and both submission paths. -/
theorem committed_state_nonneg :
    (∀ (st : Exchange) (tid : TraderId) (tk : Ticker) (a : Int) (st1 : Exchange),
      Nonneg st → changeTraderBalance st tid tk a = Except.ok st1 → Nonneg st1) ∧
    (∀ (st : Exchange) (tid : TraderId) (a : Int),
      st.balances tid + a < 0 →
        changeTraderBalance st tid BASE_CURRENCY_TICKER a = Except.error "Balance must be >= 0") ∧
    (∀ (st : Exchange) (orderId : Nat) (tid : TraderId) (r : Exchange × Order),
      Nonneg st → cancelOrder st orderId tid = Except.ok (some r) → Nonneg r.1) ∧
    (∀ (st : Exchange) (tk : Ticker) (q : Int) (p : Option Int) (tid : TraderId),
      Nonneg st → WF st → Nonneg (createLimitBuyOrder st tk q p tid).1) ∧
    (∀ (st : Exchange) (tk : Ticker) (q : Int) (p : Option Int) (tid : TraderId),
      Nonneg st → WF st → Nonneg (createLimitSellOrder st tk q p tid).1) := by
  refine ⟨?_, ?_, ?_, ?_, ?_⟩
  · intro st tid tk a st1 hnn h
    exact changeBalance_nonneg hnn h
  · intro st tid a hneg
    unfold changeTraderBalance changeBalance
    rw [if_pos rfl, if_pos hneg]
  · intro st orderId tid r hnn h
    unfold cancelOrder at h
    cases hf : st.orders.find?
        (fun o => decide (o.oid = orderId) && decide (o.trader_id = tid)) with
    | none =>
      rw [hf] at h
      simp at h
    | some o =>
      rw [hf] at h
      dsimp only at h
      by_cases hfin : isFinal o = true
      · rw [if_pos hfin] at h
        simp at h
      · rw [if_neg hfin] at h
        cases hop : o.price with
        | none =>
          rw [hop] at h
          simp at h
        | some pp =>
          rw [hop] at h
          dsimp only at h
          cases hdir : o.direction with
          | ASK =>
            rw [hdir] at h
            dsimp only at h
            cases hcb : changeBalance st o.trader_id o.symbol_ticker o.amount with
            | error e => rw [hcb] at h; simp [bind, Except.bind] at h
            | ok st1 =>
              rw [hcb] at h
              simp only [bind, Except.bind, Except.ok.injEq, Option.some.injEq] at h
              have hnn1 := changeBalance_nonneg hnn hcb
              rw [← h]
              exact ⟨hnn1.1, hnn1.2⟩
          | BID =>
            rw [hdir] at h
            dsimp only at h
            cases hcb : changeBalance st o.trader_id BASE_CURRENCY_TICKER (o.amount * pp) with
            | error e => rw [hcb] at h; simp [bind, Except.bind] at h
            | ok st1 =>
              rw [hcb] at h
              simp only [bind, Except.bind, Except.ok.injEq, Option.some.injEq] at h
              have hnn1 := changeBalance_nonneg hnn hcb
              rw [← h]
              exact ⟨hnn1.1, hnn1.2⟩
  · intro st tk q p tid hnn hwf
    cases hE : createLimitBuyOrderE st tk q p tid with
    | error e =>
      rw [createLimitBuyOrder_of_error hE]
      exact ⟨hnn.1, hnn.2⟩
    | ok r =>
      obtain ⟨st', no'⟩ := r
      rw [createLimitBuyOrder_of_ok hE]
      obtain ⟨st1, st2, hl, halt, hst'⟩ := createLimitBuyOrderE_ok hE
      by_cases hq : 0 ≤ q
      · have hnn1 : Nonneg st1 :=
          buyLoop_nonneg hnn (by simp [newOrderRow]; omega) (getOrders_wf_book hwf) hl
        have hnn2 : Nonneg st2 := by
          rcases halt with ⟨-, pp, -, hfz⟩ | ⟨-, rfl⟩
          · exact freezeBalance_nonneg hnn1 hfz
          · exact hnn1
        rw [hst']
        exact ⟨hnn2.1, hnn2.2⟩
      · have hbook : getOrders st tk OrderSide.ASK q.toNat = [] := by
          have : q.toNat = 0 := by omega
          rw [this]
          unfold getOrders
          exact List.take_zero _
        rw [hbook] at hl
        simp only [buyLoop, Except.ok.injEq, Prod.mk.injEq] at hl
        obtain ⟨h1, -⟩ := hl
        subst h1
        have hnn2 : Nonneg st2 := by
          rcases halt with ⟨-, pp, -, hfz⟩ | ⟨-, rfl⟩
          · exact freezeBalance_nonneg hnn hfz
          · exact hnn
        rw [hst']
        exact ⟨hnn2.1, hnn2.2⟩
  · intro st tk q p tid hnn hwf
    cases hE : createLimitSellOrderE st tk q p tid with
    | error e =>
      rw [createLimitSellOrder_of_error hE]
      exact ⟨hnn.1, hnn.2⟩
    | ok r =>
      obtain ⟨st', no'⟩ := r
      rw [createLimitSellOrder_of_ok hE]
      obtain ⟨st1, st2, hl, halt, hst'⟩ := createLimitSellOrderE_ok hE
      by_cases hq : 0 ≤ q
      · have hnn1 : Nonneg st1 :=
          sellLoop_nonneg hnn (by simp [newOrderRow]; omega) (getOrders_wf_book hwf) hl
        have hnn2 : Nonneg st2 := by
          rcases halt with ⟨-, -, hfz⟩ | ⟨-, rfl⟩
          · exact freezeBalance_nonneg hnn1 hfz
          · exact hnn1
        rw [hst']
        exact ⟨hnn2.1, hnn2.2⟩
      · have hbook : getOrders st tk OrderSide.BID q.toNat = [] := by
          have : q.toNat = 0 := by omega
          rw [this]
          unfold getOrders
          exact List.take_zero _
        rw [hbook] at hl
        simp only [sellLoop, Except.ok.injEq, Prod.mk.injEq] at hl
        obtain ⟨h1, -⟩ := hl
        subst h1
        have hnn2 : Nonneg st2 := by
          rcases halt with ⟨-, -, hfz⟩ | ⟨-, rfl⟩
          · exact freezeBalance_nonneg hnn hfz
          · exact hnn
        rw [hst']
        exact ⟨hnn2.1, hnn2.2⟩

/-- Witness for C6: an admin deposit of 7 to trader 3 on the well-funded store
keeps the store non-negative. -/
theorem committed_state_nonneg_witness :
    Nonneg { stRich with balances := updBal stRich.balances 3 7 } :=
  committed_state_nonneg.1 stRich 3 BASE_CURRENCY_TICKER 7
    { stRich with balances := updBal stRich.balances 3 7 } stRich_nonneg
    (by unfold changeTraderBalance changeBalance; rw [if_pos rfl, if_neg (by decide)])

/-! ## C1: price-time priority and the maker-price rule -/

/-- C1: for a limit submission with positive quantity and price, the fetched
candidates are exactly active opposite-side rows of the instrument in
price-time priority (ascending price then ascending `created_at` for the ASK
book a BID walks; descending price then ascending `created_at` for the BID
book an ASK walks), and a successful submission appends exactly the fill list
that walks those candidates in order, stops at the first candidate whose
price crosses the taker's limit (maker price above a BID's limit, below an
ASK's) or at remainder zero, and trades `min(candidate.amount, remaining)`
units priced at the resting maker's price, never the taker's. -/
theorem matching_price_time_priority (st : Exchange) (tk : Ticker) (q p : Int)
    (tid : TraderId) (hq : 0 < q) (hp : 0 < p) (hwf : WF st) :
    (List.Sorted (bookRel OrderSide.ASK) (getOrders st tk OrderSide.ASK q.toNat) ∧
      (∀ m ∈ getOrders st tk OrderSide.ASK q.toNat,
        m ∈ st.orders ∧ isActive m = true ∧ m.direction = OrderSide.ASK ∧
          m.symbol_ticker = tk) ∧
      (∀ (st' : Exchange) (no' : Order),
        createLimitBuyOrderE st tk q (some p) tid = Except.ok (st', no') →
        st'.trades = st.trades ++
          bidFills tid tk (some p) (getOrders st tk OrderSide.ASK q.toNat) q)) ∧
    (List.Sorted (bookRel OrderSide.BID) (getOrders st tk OrderSide.BID q.toNat) ∧
      (∀ m ∈ getOrders st tk OrderSide.BID q.toNat,
        m ∈ st.orders ∧ isActive m = true ∧ m.direction = OrderSide.BID ∧
          m.symbol_ticker = tk) ∧
      (∀ (st' : Exchange) (no' : Order),
        createLimitSellOrderE st tk q (some p) tid = Except.ok (st', no') →
        st'.trades = st.trades ++
          askFills tid tk (some p) (getOrders st tk OrderSide.BID q.toNat) q)) := by
  constructor
  · refine ⟨getOrders_sorted st tk OrderSide.ASK q.toNat,
      fun m hm => getOrders_subset hm, ?_⟩
    intro st' no' hE
    obtain ⟨st1, st2, hl, halt, hst'⟩ := createLimitBuyOrderE_ok hE
    have htr := buyLoop_trades hl
    simp only [newOrderRow] at htr
    have htr2 : st2.trades = st1.trades := by
      rcases halt with ⟨-, pp, -, hfz⟩ | ⟨-, rfl⟩
      · rcases freezeBalance_ok hfz with ⟨-, -, rfl⟩ | ⟨-, -, rfl⟩ <;> rfl
      · rfl
    rw [hst']
    simp only
    rw [htr2, htr]
  · refine ⟨getOrders_sorted st tk OrderSide.BID q.toNat,
      fun m hm => getOrders_subset hm, ?_⟩
    intro st' no' hE
    obtain ⟨st1, st2, hl, halt, hst'⟩ := createLimitSellOrderE_ok hE
    have htr := sellLoop_trades hl
    simp only [newOrderRow] at htr
    have htr2 : st2.trades = st1.trades := by
      rcases halt with ⟨-, -, hfz⟩ | ⟨-, rfl⟩
      · rcases freezeBalance_ok hfz with ⟨-, -, rfl⟩ | ⟨-, -, rfl⟩ <;> rfl
      · rfl
    rw [hst']
    simp only
    rw [htr2, htr]

/-- Witness for C1 at the simple-cross store: trader 1 BUYs 5 @ 120 against a
book whose only ASK is 5 @ 100. -/
theorem matching_price_time_priority_witness :
    List.Sorted (bookRel OrderSide.ASK) (getOrders stRich "AAA" OrderSide.ASK (5 : Int).toNat) ∧
      (∀ m ∈ getOrders stRich "AAA" OrderSide.ASK (5 : Int).toNat,
        m ∈ stRich.orders ∧ isActive m = true ∧ m.direction = OrderSide.ASK ∧
          m.symbol_ticker = "AAA") ∧
      (∀ (st' : Exchange) (no' : Order),
        createLimitBuyOrderE stRich "AAA" 5 (some 120) 1 = Except.ok (st', no') →
        st'.trades = stRich.trades ++
          bidFills 1 "AAA" (some 120) (getOrders stRich "AAA" OrderSide.ASK (5 : Int).toNat) 5) :=
  (matching_price_time_priority stRich "AAA" 5 120 1 (by decide) (by decide) (by decide)).1

/-! ## C9 infrastructure: what the level accumulator computes -/

theorem aggVal_aggAdd (acc : List (Int × Int)) (p a r : Int) :
    aggVal (aggAdd acc p a) r = if r = p then aggVal acc r + a else aggVal acc r := by
  induction acc with
  | nil =>
    simp only [aggAdd, aggVal]
    by_cases h : r = p
    · subst h
      rw [if_pos rfl, if_pos rfl]
      omega
    · rw [if_neg (fun hh => h hh.symm), if_neg h]
  | cons hd tl ih =>
    obtain ⟨p', v⟩ := hd
    simp only [aggAdd]
    by_cases h1 : p' = p
    · subst h1
      simp only [if_pos rfl, aggVal]
      by_cases h2 : r = p'
      · subst h2
        rw [if_pos rfl, if_pos rfl, if_pos rfl]
      · rw [if_neg (fun hh => h2 hh.symm), if_neg h2, if_neg (fun hh => h2 hh.symm)]
    · simp only [if_neg h1, aggVal]
      by_cases h2 : p' = r
      · subst h2
        rw [if_pos rfl, if_neg h1, if_pos rfl]
      · simp only [if_neg h2]
        exact ih

theorem keys_aggAdd (acc : List (Int × Int)) (p a : Int) :
    (aggAdd acc p a).map Prod.fst =
      if p ∈ acc.map Prod.fst then acc.map Prod.fst else acc.map Prod.fst ++ [p] := by
  induction acc with
  | nil => simp [aggAdd]
  | cons hd tl ih =>
    obtain ⟨p', v⟩ := hd
    by_cases h1 : p' = p
    · subst h1
      simp [aggAdd]
    · simp only [aggAdd, if_neg h1, List.map_cons]
      rw [ih]
      by_cases h2 : p ∈ tl.map Prod.fst
      · rw [if_pos h2, if_pos (List.mem_cons_of_mem _ h2)]
      · rw [if_neg h2, if_neg (fun hcon => by
          rcases List.mem_cons.mp hcon with hc | hc
          · exact h1 hc.symm
          · exact h2 hc)]
        rfl

theorem nodup_keys_aggAdd {acc : List (Int × Int)} (p a : Int)
    (h : (acc.map Prod.fst).Nodup) : ((aggAdd acc p a).map Prod.fst).Nodup := by
  rw [keys_aggAdd]
  split
  · exact h
  · next hmem =>
    refine h.append (List.nodup_singleton p) ?_
    intro x hx hx'
    simp only [List.mem_singleton] at hx'
    subst hx'
    exact hmem hx

theorem mem_aggVal : ∀ {acc : List (Int × Int)}, (acc.map Prod.fst).Nodup →
    ∀ {pq : Int × Int}, pq ∈ acc → pq.2 = aggVal acc pq.1
  | [], _, _, h => by cases h
  | (p', v) :: tl, hnd, pq, h => by
    rcases List.mem_cons.mp h with rfl | h'
    · simp [aggVal]
    · have hne : p' ≠ pq.1 := by
        intro hcon
        have : pq.1 ∈ tl.map Prod.fst := List.mem_map.mpr ⟨pq, h', rfl⟩
        rw [← hcon] at this
        exact (List.nodup_cons.mp (by simpa using hnd)).1 this
      simp only [aggVal, if_neg hne]
      exact mem_aggVal (List.nodup_cons.mp (by simpa using hnd)).2 h'

theorem sumAmountAt_cons (o : Order) (l : List Order) (r : Int) :
    sumAmountAt (o :: l) r =
      (if levelPrice o = some r then o.amount else 0) + sumAmountAt l r := by
  by_cases h : levelPrice o = some r
  · simp [sumAmountAt, List.filter_cons, h]
  · simp [sumAmountAt, List.filter_cons, h]

theorem aggregate_fold (l : List Order) : ∀ acc : List (Int × Int),
    (∀ r, aggVal (l.foldl aggStep acc) r = aggVal acc r + sumAmountAt l r) ∧
      ((acc.map Prod.fst).Nodup → ((l.foldl aggStep acc).map Prod.fst).Nodup) ∧
      (∀ r, r ∈ (l.foldl aggStep acc).map Prod.fst ↔
        r ∈ acc.map Prod.fst ∨ ∃ o ∈ l, levelPrice o = some r) := by
  induction l with
  | nil =>
    intro acc
    refine ⟨fun r => by simp [sumAmountAt], fun h => h, fun r => by simp⟩
  | cons o rest ih =>
    intro acc
    refine ⟨?_, ?_, ?_⟩
    · intro r
      rw [List.foldl_cons]
      rw [(ih (aggStep acc o)).1 r, sumAmountAt_cons]
      unfold aggStep levelPrice
      cases hop : o.price with
      | none => simp
      | some p =>
        by_cases hz : p = 0
        · simp [hz]
        · simp only [if_neg hz]
          rw [aggVal_aggAdd]
          by_cases hr : r = p
          · subst hr
            simp
            omega
          · rw [if_neg hr]
            simp only [Option.some.injEq]
            rw [if_neg (fun hh : p = r => hr hh.symm)]
            omega
    · intro hnd
      rw [List.foldl_cons]
      refine (ih (aggStep acc o)).2.1 ?_
      unfold aggStep
      cases o.price with
      | none => exact hnd
      | some p =>
        by_cases hz : p = 0
        · simpa [hz] using hnd
        · simp only [if_neg hz]
          exact nodup_keys_aggAdd p o.amount hnd
    · intro r
      rw [List.foldl_cons]
      rw [(ih (aggStep acc o)).2.2 r]
      unfold aggStep levelPrice
      cases hop : o.price with
      | none => simp [hop, levelPrice]
      | some p =>
        by_cases hz : p = 0
        · simp [hz, hop, levelPrice]
        · simp only [if_neg hz]
          rw [keys_aggAdd]
          constructor
          · intro h
            rcases h with h | h
            · split at h
              · exact Or.inl h
              · rcases List.mem_append.mp h with h' | h'
                · exact Or.inl h'
                · simp only [List.mem_singleton] at h'
                  subst h'
                  exact Or.inr ⟨o, List.mem_cons_self _ _, by simp [levelPrice, hop, hz]⟩
            · obtain ⟨o', ho', hlp⟩ := h
              exact Or.inr ⟨o', List.mem_cons_of_mem _ ho', hlp⟩
          · intro h
            rcases h with h | h
            · left
              split
              · exact h
              · exact List.mem_append_left _ h
            · obtain ⟨o', ho', hlp⟩ := h
              rcases List.mem_cons.mp ho' with rfl | ho''
              · simp only [levelPrice, hop, if_neg hz, Option.some.injEq] at hlp
                subst hlp
                left
                split
                · next hmem => exact hmem
                · exact List.mem_append_right _ (by simp)
              · exact Or.inr ⟨o', ho'', hlp⟩

/-! ## C9: orderbook levels -/

/-- C9 counterexample: with two active ASK rows at price 10 holding 1 and 2
units and `depth = 1`, the endpoint reports the level quantity 1 - the
aggregation only sums over the first `depth` fetched orders - while the claim
says every reported level carries the sum over all active orders at that
price, here 3. -/
theorem orderbook_depth_aggregation_cex :
    aggregateOrders stSamePrice "AAA" OrderSide.ASK 1 = [(10, 1)] ∧
      activeAmountAt stSamePrice "AAA" OrderSide.ASK 10 = 3 ∧
      ¬(∀ pq ∈ aggregateOrders stSamePrice "AAA" OrderSide.ASK 1,
          pq.2 = activeAmountAt stSamePrice "AAA" OrderSide.ASK pq.1) :=
  ⟨by decide, by decide, by decide⟩

/-- C9 as the code behaves: bid levels are reported in descending and ask
levels in ascending price order with distinct prices, but the quantity at
each level is the sum of `amount` over the *fetched* orders at that price -
the top `depth` active orders in book priority - not over all active orders:
the `limit` truncation happens before aggregation. Every truthy-priced
fetched order contributes to exactly the level carrying its price. -/
theorem orderbook_levels_from_fetched (st : Exchange) (tk : Ticker) (limit : Nat) :
    List.Sorted levelRel (aggregateOrders st tk OrderSide.ASK limit) ∧
      List.Sorted (fun a b => levelRel b a) (aggregateOrders st tk OrderSide.BID limit) ∧
      ∀ dir : OrderSide,
        ((aggregateOrders st tk dir limit).map Prod.fst).Nodup ∧
          (∀ pq ∈ aggregateOrders st tk dir limit,
            pq.2 = sumAmountAt (getOrders st tk dir limit) pq.1 ∧
              ∃ o ∈ getOrders st tk dir limit, levelPrice o = some pq.1) ∧
          (∀ o ∈ getOrders st tk dir limit, ∀ r, levelPrice o = some r →
            ∃ v, (r, v) ∈ aggregateOrders st tk dir limit) := by
  refine ⟨?_, ?_, ?_⟩
  · exact List.sorted_insertionSort levelRel _
  · show List.Sorted _ (List.insertionSort levelRel _).reverse
    rw [List.Sorted, List.pairwise_reverse]
    exact List.sorted_insertionSort levelRel _
  · intro dir
    have hmem : ∀ pq : Int × Int, pq ∈ aggregateOrders st tk dir limit ↔
        pq ∈ aggregate (getOrders st tk dir limit) := by
      intro pq
      cases dir
      · exact List.mem_insertionSort levelRel
      · show pq ∈ (List.insertionSort levelRel _).reverse ↔ _
        rw [List.mem_reverse]
        exact List.mem_insertionSort levelRel
    have hkeysperm : List.Perm ((aggregateOrders st tk dir limit).map Prod.fst)
        ((aggregate (getOrders st tk dir limit)).map Prod.fst) := by
      cases dir
      · exact (List.perm_insertionSort levelRel _).map Prod.fst
      · exact ((List.reverse_perm _).trans (List.perm_insertionSort levelRel _)).map Prod.fst
    have hfold := aggregate_fold (getOrders st tk dir limit) []
    have hnda : ((aggregate (getOrders st tk dir limit)).map Prod.fst).Nodup :=
      hfold.2.1 (by simp)
    refine ⟨hkeysperm.nodup_iff.mpr hnda, ?_, ?_⟩
    · intro pq hpq
      have hpq' := (hmem pq).mp hpq
      have hval := mem_aggVal hnda hpq'
      have hsum : aggVal (aggregate (getOrders st tk dir limit)) pq.1 =
          aggVal [] pq.1 + sumAmountAt (getOrders st tk dir limit) pq.1 := hfold.1 pq.1
      rw [hval, hsum]
      refine ⟨by simp [aggVal], ?_⟩
      have hkey : pq.1 ∈ (aggregate (getOrders st tk dir limit)).map Prod.fst :=
        List.mem_map.mpr ⟨pq, hpq', rfl⟩
      have := (hfold.2.2 pq.1).mp hkey
      simpa using this
    · intro o ho r hr
      have hkey : r ∈ (aggregate (getOrders st tk dir limit)).map Prod.fst :=
        (hfold.2.2 r).mpr (Or.inr ⟨o, ho, hr⟩)
      obtain ⟨pq, hpq, hfst⟩ := List.mem_map.mp hkey
      refine ⟨pq.2, ?_⟩
      rw [hmem (r, pq.2)]
      have : (r, pq.2) = pq := by
        rw [← hfst]
      rw [this]
      exact hpq

/-! ## C2: the reservation protocol against the per-match debits -/

theorem exchange_eq_of_fields {a b : Exchange} (hb : a.balances = b.balances)
    (hp : a.positions = b.positions) (ho : a.orders = b.orders)
    (ht : a.trades = b.trades) (hn : a.nextOid = b.nextOid) : a = b := by
  cases a
  cases b
  simp_all

theorem order_eq_of_fields {a b : Order} (h1 : a.oid = b.oid)
    (h2 : a.trader_id = b.trader_id) (h3 : a.symbol_ticker = b.symbol_ticker)
    (h4 : a.amount = b.amount) (h5 : a.filled = b.filled) (h6 : a.price = b.price)
    (h7 : a.direction = b.direction) (h8 : a.status = b.status)
    (h9 : a.created_at = b.created_at) : a = b := by
  cases a
  cases b
  simp_all

theorem updBal_add (bal : TraderId → Int) (t : TraderId) (a b : Int) :
    updBal (updBal bal t a) t b = updBal bal t (a + b) := by
  funext x
  simp only [updBal]
  by_cases h : x = t <;> simp [h] <;> ring

theorem updBal_zero (bal : TraderId → Int) (t : TraderId) :
    updBal bal t 0 = bal := by
  funext x
  simp [updBal]

theorem updBal_comm (bal : TraderId → Int) (t s : TraderId) (a b : Int) :
    updBal (updBal bal t a) s b = updBal (updBal bal s b) t a := by
  funext x
  simp only [updBal]
  split_ifs <;> omega

theorem updPos_add (pos : TraderId → Ticker → Int) (t : TraderId) (s : Ticker) (a b : Int) :
    updPos (updPos pos t s a) t s b = updPos pos t s (a + b) := by
  funext x y
  simp only [updPos]
  by_cases h : x = t ∧ y = s <;> simp [h] <;> ring

theorem updPos_zero (pos : TraderId → Ticker → Int) (t : TraderId) (s : Ticker) :
    updPos pos t s 0 = pos := by
  funext x y
  simp [updPos]

theorem updPos_comm (pos : TraderId → Ticker → Int) (t u : TraderId) (s v : Ticker)
    (a b : Int) :
    updPos (updPos pos t s a) u v b = updPos (updPos pos u v b) t s a := by
  funext x y
  simp only [updPos]
  split_ifs <;> omega

/-- The taker's identity fields survive the matching walk, and its status
stays in the NEW / residual-formula shape: NEW exactly while nothing filled,
otherwise EXECUTED or PARTIALLY_EXECUTED according to the residual, with at
least one unit filled. -/
theorem buyLoop_taker_fields {bId : TraderId} {tk : Ticker} {p : Option Int}
    {book : List Order} {st : Exchange} {no : Order} {st' : Exchange} {no' : Order}
    (hbook : ∀ m ∈ book, 1 ≤ m.amount)
    (hno : 0 ≤ no.amount)
    (hinv : (no.status = OrderStatus.NEW ∧ no.filled = 0) ∨
      (no.status = (if no.amount = 0 then OrderStatus.EXECUTED
        else OrderStatus.PARTIALLY_EXECUTED) ∧ 1 ≤ no.filled))
    (h : buyLoop bId tk p st no book = Except.ok (st', no')) :
    no'.oid = no.oid ∧ no'.trader_id = no.trader_id ∧
      no'.symbol_ticker = no.symbol_ticker ∧ no'.price = no.price ∧
      no'.direction = no.direction ∧ no'.created_at = no.created_at ∧
      ((no'.status = OrderStatus.NEW ∧ no'.filled = 0) ∨
        (no'.status = (if no'.amount = 0 then OrderStatus.EXECUTED
          else OrderStatus.PARTIALLY_EXECUTED) ∧ 1 ≤ no'.filled)) := by
  induction book generalizing st no with
  | nil =>
    simp only [buyLoop, Except.ok.injEq, Prod.mk.injEq] at h
    rw [← h.2]
    exact ⟨rfl, rfl, rfl, rfl, rfl, rfl, hinv⟩
  | cons m rest ih =>
    rcases buyLoop_cons_ok h with ⟨h0, rfl, rfl⟩ | ⟨lp, mp, hp, hm, hlt, h0, rfl, rfl⟩ |
      ⟨mp, st1, m1, no1, h0, hm, hgate, hb, hpm, hpn, hrec⟩
    · exact ⟨rfl, rfl, rfl, rfl, rfl, rfl, hinv⟩
    · exact ⟨rfl, rfl, rfl, rfl, rfl, rfl, hinv⟩
    · have hma := hbook m (List.mem_cons_self _ _)
      have hf0 : 0 ≤ no.filled := by
        rcases hinv with ⟨-, h1⟩ | ⟨-, h1⟩ <;> omega
      obtain ⟨hle, rfl⟩ := partiallyExecuteOrder_ok hpn
      have hres := ih (fun m' h' => hbook m' (List.mem_cons_of_mem _ h'))
        (by simp only; omega)
        (Or.inr ⟨rfl, by simp only; omega⟩) hrec
      exact hres

/-- `sellLoop` analogue of `buyLoop_taker_fields`. -/
theorem sellLoop_taker_fields {sId : TraderId} {tk : Ticker} {p : Option Int}
    {book : List Order} {st : Exchange} {no : Order} {st' : Exchange} {no' : Order}
    (hbook : ∀ m ∈ book, 1 ≤ m.amount)
    (hno : 0 ≤ no.amount)
    (hinv : (no.status = OrderStatus.NEW ∧ no.filled = 0) ∨
      (no.status = (if no.amount = 0 then OrderStatus.EXECUTED
        else OrderStatus.PARTIALLY_EXECUTED) ∧ 1 ≤ no.filled))
    (h : sellLoop sId tk p st no book = Except.ok (st', no')) :
    no'.oid = no.oid ∧ no'.trader_id = no.trader_id ∧
      no'.symbol_ticker = no.symbol_ticker ∧ no'.price = no.price ∧
      no'.direction = no.direction ∧ no'.created_at = no.created_at ∧
      ((no'.status = OrderStatus.NEW ∧ no'.filled = 0) ∨
        (no'.status = (if no'.amount = 0 then OrderStatus.EXECUTED
          else OrderStatus.PARTIALLY_EXECUTED) ∧ 1 ≤ no'.filled)) := by
  induction book generalizing st no with
  | nil =>
    simp only [sellLoop, Except.ok.injEq, Prod.mk.injEq] at h
    rw [← h.2]
    exact ⟨rfl, rfl, rfl, rfl, rfl, rfl, hinv⟩
  | cons m rest ih =>
    rcases sellLoop_cons_ok h with ⟨h0, rfl, rfl⟩ | ⟨lp, mp, hp, hm, hlt, h0, rfl, rfl⟩ |
      ⟨mp, st1, m1, no1, h0, hm, hgate, hb, hpm, hpn, hrec⟩
    · exact ⟨rfl, rfl, rfl, rfl, rfl, rfl, hinv⟩
    · exact ⟨rfl, rfl, rfl, rfl, rfl, rfl, hinv⟩
    · have hma := hbook m (List.mem_cons_self _ _)
      have hf0 : 0 ≤ no.filled := by
        rcases hinv with ⟨-, h1⟩ | ⟨-, h1⟩ <;> omega
      obtain ⟨hle, rfl⟩ := partiallyExecuteOrder_ok hpn
      have hres := ih (fun m' h' => hbook m' (List.mem_cons_of_mem _ h'))
        (by simp only; omega)
        (Or.inr ⟨rfl, by simp only; omega⟩) hrec
      exact hres

/-- Simulation of the source's per-match-debit walk by the spec's credit-only
walk (priced BID taker). On a well-formed candidate book, when the taker's
outstanding value `remaining * limit` is covered by its cash, the source loop
succeeds and keeps that cover invariant; and from any store that agrees with
the source's except for the taker's cash shifted by `δ`, the spec walk lands
exactly in the source's result store with the shift grown by the cash the
matches consumed. -/
theorem specBidLoop_sim {tid : TraderId} {tk : Ticker} {p : Int} (book : List Order) :
    ∀ (st ss : Exchange) (no : Order) (δ c : Int),
      ss.balances = updBal st.balances tid δ → ss.positions = st.positions →
      ss.orders = st.orders → ss.trades = st.trades → ss.nextOid = st.nextOid →
      (∀ m ∈ book, 1 ≤ m.amount ∧ ∃ mp, m.price = some mp ∧ 0 < mp) →
      0 ≤ no.amount → 0 < p → no.amount * p ≤ st.balances tid →
      ∃ st' no' V,
        buyLoop tid tk (some p) st no book = Except.ok (st', no') ∧
        0 ≤ no'.amount ∧ no'.amount * p ≤ st'.balances tid ∧
        specBidLoop tid tk p ss no.amount c book =
          ({ st' with balances := updBal st'.balances tid (δ + V) }, no'.amount, c + V) := by
  induction book with
  | nil =>
    intro st ss no δ c hbss hpss hoss htss hnss hbook hno hp hfund
    have hsseq : ss = { st with balances := updBal st.balances tid δ } :=
      exchange_eq_of_fields hbss hpss hoss htss hnss
    refine ⟨st, no, 0, rfl, hno, hfund, ?_⟩
    simp only [specBidLoop, add_zero]
    rw [hsseq]
  | cons m rest ih =>
    intro st ss no δ c hbss hpss hoss htss hnss hbook hno hp hfund
    have hsseq : ss = { st with balances := updBal st.balances tid δ } :=
      exchange_eq_of_fields hbss hpss hoss htss hnss
    obtain ⟨hma, mp, hmp, hmppos⟩ := hbook m (List.mem_cons_self _ _)
    by_cases h0 : no.amount = 0
    · refine ⟨st, no, 0, ?_, hno, hfund, ?_⟩
      · simp [buyLoop, h0]
      · simp only [specBidLoop, if_pos h0, add_zero]
        rw [hsseq]
    · by_cases hlt : p < mp
      · refine ⟨st, no, 0, ?_, hno, hfund, ?_⟩
        · simp only [buyLoop, if_neg h0, hmp]
          rw [if_pos hlt]
        · simp only [specBidLoop, if_neg h0, hmp, add_zero]
          rw [if_pos hlt, hsseq]
      · have ha0 : 0 < min m.amount no.amount := by omega
        have halem : min m.amount no.amount ≤ m.amount := min_le_left _ _
        have halen : min m.amount no.amount ≤ no.amount := min_le_right _ _
        have hmple : mp ≤ p := by omega
        have hamp_le : min m.amount no.amount * mp ≤ min m.amount no.amount * p :=
          mul_le_mul_of_nonneg_left hmple (le_of_lt ha0)
        have hap_le : min m.amount no.amount * p ≤ no.amount * p :=
          mul_le_mul_of_nonneg_right halen (le_of_lt hp)
        have hampnn : 0 ≤ min m.amount no.amount * mp :=
          mul_nonneg (le_of_lt ha0) (le_of_lt hmppos)
        have hbuy_check : min m.amount no.amount * mp ≤ st.balances tid :=
          le_trans (le_trans hamp_le hap_le) hfund
        obtain ⟨st1, hbuy⟩ : ∃ st1,
            buy st m.trader_id tid tk mp (min m.amount no.amount) = Except.ok st1 := by
          unfold buy
          rw [if_neg (not_lt.mpr hbuy_check)]
          exact ⟨_, rfl⟩
        obtain ⟨-, hst1⟩ := buy_ok hbuy
        obtain ⟨m1, hpm⟩ : ∃ m1,
            partiallyExecuteOrder m (min m.amount no.amount) = Except.ok m1 := by
          unfold partiallyExecuteOrder
          rw [if_neg (not_lt.mpr halem)]
          exact ⟨_, rfl⟩
        obtain ⟨-, hm1⟩ := partiallyExecuteOrder_ok hpm
        obtain ⟨no1, hpn⟩ : ∃ no1,
            partiallyExecuteOrder no (min m.amount no.amount) = Except.ok no1 := by
          unfold partiallyExecuteOrder
          rw [if_neg (not_lt.mpr halen)]
          exact ⟨_, rfl⟩
        have hfn := partiallyExecuteOrder_fields hpn
        have hb1 : st1.balances =
            updBal (updBal st.balances m.trader_id (min m.amount no.amount * mp)) tid
              (-(min m.amount no.amount * mp)) := by
          rw [hst1]
        have hp1 : st1.positions = updPos st.positions tid tk (min m.amount no.amount) := by
          rw [hst1]
        have ht1 : st1.trades = st.trades ++ [{ trader_from_id := m.trader_id
                                                trader_to_id := tid
                                                symbol_ticker := tk
                                                amount := min m.amount no.amount
                                                price := mp }] := by
          rw [hst1]
        have ho1 : st1.orders = st.orders := by
          rw [hst1]
        have hn1 : st1.nextOid = st.nextOid := by
          rw [hst1]
        have hbalN : st.balances tid - min m.amount no.amount * mp ≤ st1.balances tid := by
          rw [hb1]
          simp only [updBal]
          split_ifs <;> omega
        have hfund1 : no1.amount * p ≤ st1.balances tid := by
          have h1 : no1.amount * p = no.amount * p - min m.amount no.amount * p := by
            rw [hfn.2.1]
            ring
          rw [h1]
          linarith [hbalN, hamp_le, hfund]
        obtain ⟨st', no', V', hloop', hno', hfund', hspec'⟩ :=
          ih { st1 with orders := setOrder st1.orders m1 }
            { ss with
              balances := updBal ss.balances m.trader_id (min m.amount no.amount * mp)
              positions := updPos ss.positions tid tk (min m.amount no.amount)
              trades := ss.trades ++ [{ trader_from_id := m.trader_id
                                        trader_to_id := tid
                                        symbol_ticker := tk
                                        amount := min m.amount no.amount
                                        price := mp }]
              orders := setOrder ss.orders
                { m with
                  amount := m.amount - min m.amount no.amount
                  filled := m.filled + min m.amount no.amount
                  status := if m.amount - min m.amount no.amount = 0 then
                      OrderStatus.EXECUTED
                    else OrderStatus.PARTIALLY_EXECUTED } }
            no1 (δ + min m.amount no.amount * mp) (c + min m.amount no.amount * mp)
            (by
              show updBal ss.balances m.trader_id (min m.amount no.amount * mp) =
                updBal st1.balances tid (δ + min m.amount no.amount * mp)
              rw [hbss, hb1, updBal_add]
              have harith : -(min m.amount no.amount * mp) +
                  (δ + min m.amount no.amount * mp) = δ := by ring
              rw [harith, updBal_comm])
            (by
              show updPos ss.positions tid tk (min m.amount no.amount) = st1.positions
              rw [hpss, hp1])
            (by
              show setOrder ss.orders
                  { m with
                    amount := m.amount - min m.amount no.amount
                    filled := m.filled + min m.amount no.amount
                    status := if m.amount - min m.amount no.amount = 0 then
                        OrderStatus.EXECUTED
                      else OrderStatus.PARTIALLY_EXECUTED } = setOrder st1.orders m1
              rw [hoss, ho1, hm1])
            (by
              show ss.trades ++ [{ trader_from_id := m.trader_id
                                   trader_to_id := tid
                                   symbol_ticker := tk
                                   amount := min m.amount no.amount
                                   price := mp }] = st1.trades
              rw [htss, ht1])
            (by
              show ss.nextOid = st1.nextOid
              rw [hnss, hn1])
            (fun m' h' => hbook m' (List.mem_cons_of_mem _ h'))
            (by omega) hp hfund1
        refine ⟨st', no', min m.amount no.amount * mp + V', ?_, hno', hfund', ?_⟩
        · simp only [buyLoop, if_neg h0, hmp]
          rw [if_neg hlt, hbuy]
          simp only [bind, Except.bind]
          rw [hpm]
          dsimp only
          rw [hpn]
          dsimp only
          exact hloop'
        · simp only [specBidLoop, if_neg h0, hmp]
          rw [if_neg hlt]
          rw [hfn.2.1, hmp] at hspec'
          rw [hspec']
          have h1 : δ + min m.amount no.amount * mp + V' =
              δ + (min m.amount no.amount * mp + V') := by ring
          have h2 : c + min m.amount no.amount * mp + V' =
              c + (min m.amount no.amount * mp + V') := by ring
          rw [h1, h2]

/-- ASK-taker analogue of `specBidLoop_sim`: source and spec walks coincide
when the taker's remaining inventory is covered by its position, the spec
store differing only by a shift `δ` of the taker's position that grows by
each filled quantity. -/
theorem specAskLoop_sim {tid : TraderId} {tk : Ticker} {p : Int} (book : List Order) :
    ∀ (st ss : Exchange) (no : Order) (δ : Int),
      ss.balances = st.balances → ss.positions = updPos st.positions tid tk δ →
      ss.orders = st.orders → ss.trades = st.trades → ss.nextOid = st.nextOid →
      (∀ m ∈ book, 1 ≤ m.amount ∧ ∃ mp, m.price = some mp ∧ 0 < mp) →
      0 ≤ no.amount → no.amount ≤ st.positions tid tk →
      ∃ st' no',
        sellLoop tid tk (some p) st no book = Except.ok (st', no') ∧
        0 ≤ no'.amount ∧ no'.amount ≤ st'.positions tid tk ∧
        specAskLoop tid tk p ss no.amount book =
          ({ st' with
              positions := updPos st'.positions tid tk (δ + (no.amount - no'.amount)) },
            no'.amount) := by
  induction book with
  | nil =>
    intro st ss no δ hbss hpss hoss htss hnss hbook hno hfund
    have hsseq : ss = { st with positions := updPos st.positions tid tk δ } :=
      exchange_eq_of_fields hbss hpss hoss htss hnss
    refine ⟨st, no, rfl, hno, hfund, ?_⟩
    simp only [specAskLoop, sub_self, add_zero]
    rw [hsseq]
  | cons m rest ih =>
    intro st ss no δ hbss hpss hoss htss hnss hbook hno hfund
    have hsseq : ss = { st with positions := updPos st.positions tid tk δ } :=
      exchange_eq_of_fields hbss hpss hoss htss hnss
    obtain ⟨hma, mp, hmp, hmppos⟩ := hbook m (List.mem_cons_self _ _)
    by_cases h0 : no.amount = 0
    · refine ⟨st, no, ?_, hno, hfund, ?_⟩
      · simp [sellLoop, h0]
      · simp only [specAskLoop, if_pos h0, sub_self, add_zero]
        rw [hsseq]
    · by_cases hlt : mp < p
      · refine ⟨st, no, ?_, hno, hfund, ?_⟩
        · simp only [sellLoop, if_neg h0, hmp]
          rw [if_pos hlt]
        · simp only [specAskLoop, if_neg h0, hmp, sub_self, add_zero]
          rw [if_pos hlt, hsseq]
      · have ha0 : 0 < min m.amount no.amount := by omega
        have halem : min m.amount no.amount ≤ m.amount := min_le_left _ _
        have halen : min m.amount no.amount ≤ no.amount := min_le_right _ _
        have hsell_check : ¬ st.positions tid tk < min m.amount no.amount :=
          not_lt.mpr (le_trans halen hfund)
        obtain ⟨st1, hsell⟩ : ∃ st1,
            sell st tid m.trader_id tk mp (min m.amount no.amount) = Except.ok st1 := by
          unfold sell
          rw [if_neg hsell_check]
          exact ⟨_, rfl⟩
        obtain ⟨-, hst1⟩ := sell_ok hsell
        obtain ⟨m1, hpm⟩ : ∃ m1,
            partiallyExecuteOrder m (min m.amount no.amount) = Except.ok m1 := by
          unfold partiallyExecuteOrder
          rw [if_neg (not_lt.mpr halem)]
          exact ⟨_, rfl⟩
        obtain ⟨-, hm1⟩ := partiallyExecuteOrder_ok hpm
        obtain ⟨no1, hpn⟩ : ∃ no1,
            partiallyExecuteOrder no (min m.amount no.amount) = Except.ok no1 := by
          unfold partiallyExecuteOrder
          rw [if_neg (not_lt.mpr halen)]
          exact ⟨_, rfl⟩
        have hfn := partiallyExecuteOrder_fields hpn
        have hb1 : st1.balances = updBal st.balances tid (min m.amount no.amount * mp) := by
          rw [hst1]
        have hp1 : st1.positions =
            updPos (updPos st.positions tid tk (-(min m.amount no.amount))) m.trader_id tk
              (min m.amount no.amount) := by
          rw [hst1]
        have ht1 : st1.trades = st.trades ++ [{ trader_from_id := tid
                                                trader_to_id := m.trader_id
                                                symbol_ticker := tk
                                                amount := min m.amount no.amount
                                                price := mp }] := by
          rw [hst1]
        have ho1 : st1.orders = st.orders := by
          rw [hst1]
        have hn1 : st1.nextOid = st.nextOid := by
          rw [hst1]
        have hfund1 : no1.amount ≤ st1.positions tid tk := by
          rw [hfn.2.1, hp1]
          simp only [updPos]
          split_ifs <;> omega
        obtain ⟨st', no', hloop', hno', hfund', hspec'⟩ :=
          ih { st1 with orders := setOrder st1.orders m1 }
            { ss with
              balances := updBal ss.balances tid (min m.amount no.amount * mp)
              positions := updPos ss.positions m.trader_id tk (min m.amount no.amount)
              trades := ss.trades ++ [{ trader_from_id := tid
                                        trader_to_id := m.trader_id
                                        symbol_ticker := tk
                                        amount := min m.amount no.amount
                                        price := mp }]
              orders := setOrder ss.orders
                { m with
                  amount := m.amount - min m.amount no.amount
                  filled := m.filled + min m.amount no.amount
                  status := if m.amount - min m.amount no.amount = 0 then
                      OrderStatus.EXECUTED
                    else OrderStatus.PARTIALLY_EXECUTED } }
            no1 (δ + min m.amount no.amount)
            (by
              show updBal ss.balances tid (min m.amount no.amount * mp) = st1.balances
              rw [hbss, hb1])
            (by
              show updPos ss.positions m.trader_id tk (min m.amount no.amount) =
                updPos st1.positions tid tk (δ + min m.amount no.amount)
              rw [hpss, hp1]
              rw [updPos_comm st.positions tid m.trader_id tk tk
                (-(min m.amount no.amount)) (min m.amount no.amount)]
              rw [updPos_add]
              have harith : -(min m.amount no.amount) + (δ + min m.amount no.amount) = δ := by
                ring
              rw [harith]
              rw [updPos_comm st.positions tid m.trader_id tk tk δ (min m.amount no.amount)])
            (by
              show setOrder ss.orders
                  { m with
                    amount := m.amount - min m.amount no.amount
                    filled := m.filled + min m.amount no.amount
                    status := if m.amount - min m.amount no.amount = 0 then
                        OrderStatus.EXECUTED
                      else OrderStatus.PARTIALLY_EXECUTED } = setOrder st1.orders m1
              rw [hoss, ho1, hm1])
            (by
              show ss.trades ++ [{ trader_from_id := tid
                                   trader_to_id := m.trader_id
                                   symbol_ticker := tk
                                   amount := min m.amount no.amount
                                   price := mp }] = st1.trades
              rw [htss, ht1])
            (by
              show ss.nextOid = st1.nextOid
              rw [hnss, hn1])
            (fun m' h' => hbook m' (List.mem_cons_of_mem _ h'))
            (by omega) hfund1
        refine ⟨st', no', ?_, hno', hfund', ?_⟩
        · simp only [sellLoop, if_neg h0, hmp]
          rw [if_neg hlt, hsell]
          simp only [bind, Except.bind]
          rw [hpm]
          dsimp only
          rw [hpn]
          dsimp only
          exact hloop'
        · simp only [specAskLoop, if_neg h0, hmp]
          rw [if_neg hlt]
          rw [hfn.2.1, hmp] at hspec'
          rw [hspec']
          have h1 : δ + min m.amount no.amount +
              (no.amount - min m.amount no.amount - no'.amount) =
              δ + (no.amount - no'.amount) := by ring
          rw [h1]

/-- C2 counterexample: trader 1 holds 100 cash and submits a limit BID for 10
units of AAA at price 11 against a resting ASK of 10 units at price 5. The
spec's reservation protocol needs 110 up front and fails the submission as a
CANCELLED record with the balance untouched, while the source's per-match
debits only ever charge the maker's price: the order fully executes, one trade
persists and the balance drops to 50. The two protocols are not
observationally equivalent. -/
theorem reservation_protocol_cex :
    (createLimitBuyOrder stAskBook "AAA" 10 (some 11) 1).2.status =
        OrderStatus.EXECUTED ∧
      (createLimitBuyOrder stAskBook "AAA" 10 (some 11) 1).1.balances 1 = 50 ∧
      (createLimitBuyOrder stAskBook "AAA" 10 (some 11) 1).1.trades.length = 1 ∧
      (specSubmitBid stAskBook "AAA" 10 11 1).2.status = OrderStatus.CANCELLED ∧
      (specSubmitBid stAskBook "AAA" 10 11 1).1.balances 1 = 100 ∧
      (specSubmitBid stAskBook "AAA" 10 11 1).1.trades.length = 0 ∧
      (createLimitBuyOrder stAskBook "AAA" 10 (some 11) 1).2.status ≠
        (specSubmitBid stAskBook "AAA" 10 11 1).2.status := by
  refine ⟨by decide, by decide, by decide, by decide, by decide, by decide, by decide⟩

/-- C2 (amended): on a well-formed store, for a priced submission whose
up-front reservation is affordable - `qty * price` cash for a BID, `qty`
inventory (of a non-cash instrument) for an ASK - the spec's
reserve-up-front protocol is observationally equivalent to the source's
per-match debits: the final stores (balances, positions, orders, trades)
and the persisted order coincide exactly. When the reservation is NOT
affordable the protocols diverge (`reservation_protocol_cex`): the source
can still fill the order at cheaper maker prices. -/
theorem reservation_protocol_equiv (st : Exchange) (tk : Ticker) (q p : Int)
    (tid : TraderId) (hwf : WF st) (hq : 0 < q) (hp : 0 < p) :
    (q * p ≤ st.balances tid →
      createLimitBuyOrder st tk q (some p) tid = specSubmitBid st tk q p tid) ∧
    (tk ≠ BASE_CURRENCY_TICKER → q ≤ st.positions tid tk →
      createLimitSellOrder st tk q (some p) tid = specSubmitAsk st tk q p tid) := by
  constructor
  · intro hfund0
    have hbookwf := @getOrders_wf_book st hwf tk OrderSide.ASK q.toNat
    obtain ⟨st', no', V, hloop, hno', hfund', hspec⟩ :=
      specBidLoop_sim (getOrders st tk OrderSide.ASK q.toNat) st
        { st with balances := updBal st.balances tid (-(q * p)) }
        (newOrderRow st tid tk q (some p) OrderSide.BID) (-(q * p)) 0
        rfl rfl rfl rfl rfl hbookwf
        (by show (0 : Int) ≤ q; omega) hp
        (by show q * p ≤ st.balances tid; exact hfund0)
    have htf := buyLoop_taker_fields (fun m hm => (hbookwf m hm).1)
      (by show (0 : Int) ≤ q; omega) (Or.inl ⟨rfl, rfl⟩) hloop
    have hsum : no'.amount + no'.filled = q := by
      have h1 := buyLoop_ok_sum hloop
      simp only [newOrderRow, add_zero] at h1
      exact h1
    have hexec0 : no'.status = OrderStatus.EXECUTED → no'.amount = 0 :=
      buyLoop_exec_zero hloop (fun hE => absurd hE (by simp [newOrderRow]))
    have hstat : no'.status =
        (if no'.amount = 0 then OrderStatus.EXECUTED
         else if q - no'.amount = 0 then OrderStatus.NEW
         else OrderStatus.PARTIALLY_EXECUTED) := by
      rcases htf.2.2.2.2.2.2 with ⟨hsN, hf0⟩ | ⟨hsI, hf1⟩
      · have haq : no'.amount = q := by omega
        rw [hsN, haq, if_neg (by omega), if_pos (by omega)]
      · rw [hsI]
        by_cases hz : no'.amount = 0
        · rw [if_pos hz, if_pos hz]
        · rw [if_neg hz, if_neg hz, if_neg (by omega)]
    have h2 : no' = ({ oid := st.nextOid
                       trader_id := tid
                       symbol_ticker := tk
                       amount := no'.amount
                       filled := q - no'.amount
                       price := some p
                       direction := OrderSide.BID
                       status := if no'.amount = 0 then OrderStatus.EXECUTED
                                 else if q - no'.amount = 0 then OrderStatus.NEW
                                 else OrderStatus.PARTIALLY_EXECUTED
                       created_at := st.nextOid } : Order) :=
      order_eq_of_fields htf.1 htf.2.1 htf.2.2.1 rfl
        (by show no'.filled = q - no'.amount; omega) htf.2.2.2.1
        htf.2.2.2.2.1 hstat htf.2.2.2.2.2.1
    have hnoq : (newOrderRow st tid tk q (some p) OrderSide.BID).amount = q := rfl
    rw [hnoq] at hspec
    have hq' : ¬ st.balances tid < q * p := not_lt.mpr hfund0
    by_cases hex : no'.status = OrderStatus.EXECUTED
    · have h00 : no'.amount = 0 := hexec0 hex
      have hEsrc : createLimitBuyOrderE st tk q (some p) tid =
          Except.ok ({ st' with
              orders := st'.orders ++ [no']
              nextOid := st'.nextOid + 1 }, no') := by
        unfold createLimitBuyOrderE
        rw [hloop]
        simp only [bind, Except.bind]
        rw [if_neg (by simp [hex])]
        simp only [pure, Except.pure]
      rw [createLimitBuyOrder_of_ok hEsrc]
      unfold specSubmitBid
      rw [if_neg hq']
      rw [hspec]
      dsimp only
      simp only [Prod.mk.injEq]
      refine ⟨exchange_eq_of_fields ?_ rfl ?_ rfl rfl, h2⟩
      · rw [updBal_add]
        have harith : -(q * p) + V + ((q - no'.amount) * p - (0 + V)) = 0 := by
          rw [h00]
          ring
        rw [harith, updBal_zero]
      · rw [← h2]
    · have hfrz : freezeBalance st' tid BASE_CURRENCY_TICKER (no'.amount * p) =
          Except.ok { st' with balances := updBal st'.balances tid (-(no'.amount * p)) } := by
        unfold freezeBalance
        rw [if_pos rfl, if_neg (not_lt.mpr hfund')]
      have hEsrc : createLimitBuyOrderE st tk q (some p) tid =
          Except.ok ({ st' with
              balances := updBal st'.balances tid (-(no'.amount * p))
              orders := st'.orders ++ [no']
              nextOid := st'.nextOid + 1 }, no') := by
        unfold createLimitBuyOrderE
        rw [hloop]
        simp only [bind, Except.bind]
        rw [if_pos (by simp [hex])]
        rw [hfrz]
        simp only [pure, Except.pure]
      rw [createLimitBuyOrder_of_ok hEsrc]
      unfold specSubmitBid
      rw [if_neg hq']
      rw [hspec]
      dsimp only
      simp only [Prod.mk.injEq]
      refine ⟨exchange_eq_of_fields ?_ rfl ?_ rfl rfl, h2⟩
      · rw [updBal_add]
        have harith : -(q * p) + V + ((q - no'.amount) * p - (0 + V)) =
            -(no'.amount * p) := by ring
        rw [harith]
      · rw [← h2]
  · intro htkB hpos0
    have hbookwf := @getOrders_wf_book st hwf tk OrderSide.BID q.toNat
    obtain ⟨st', no', hloop, hno', hfund', hspec⟩ :=
      specAskLoop_sim (getOrders st tk OrderSide.BID q.toNat) st
        { st with positions := updPos st.positions tid tk (-q) }
        (newOrderRow st tid tk q (some p) OrderSide.ASK) (-q)
        rfl rfl rfl rfl rfl hbookwf
        (by show (0 : Int) ≤ q; omega)
        (by show q ≤ st.positions tid tk; exact hpos0)
    have htf := sellLoop_taker_fields (fun m hm => (hbookwf m hm).1)
      (by show (0 : Int) ≤ q; omega) (Or.inl ⟨rfl, rfl⟩) hloop
    have hsum : no'.amount + no'.filled = q := by
      have h1 := sellLoop_ok_sum hloop
      simp only [newOrderRow, add_zero] at h1
      exact h1
    have hexec0 : no'.status = OrderStatus.EXECUTED → no'.amount = 0 :=
      sellLoop_exec_zero hloop (fun hE => absurd hE (by simp [newOrderRow]))
    have hstat : no'.status =
        (if no'.amount = 0 then OrderStatus.EXECUTED
         else if q - no'.amount = 0 then OrderStatus.NEW
         else OrderStatus.PARTIALLY_EXECUTED) := by
      rcases htf.2.2.2.2.2.2 with ⟨hsN, hf0⟩ | ⟨hsI, hf1⟩
      · have haq : no'.amount = q := by omega
        rw [hsN, haq, if_neg (by omega), if_pos (by omega)]
      · rw [hsI]
        by_cases hz : no'.amount = 0
        · rw [if_pos hz, if_pos hz]
        · rw [if_neg hz, if_neg hz, if_neg (by omega)]
    have h2 : no' = ({ oid := st.nextOid
                       trader_id := tid
                       symbol_ticker := tk
                       amount := no'.amount
                       filled := q - no'.amount
                       price := some p
                       direction := OrderSide.ASK
                       status := if no'.amount = 0 then OrderStatus.EXECUTED
                                 else if q - no'.amount = 0 then OrderStatus.NEW
                                 else OrderStatus.PARTIALLY_EXECUTED
                       created_at := st.nextOid } : Order) :=
      order_eq_of_fields htf.1 htf.2.1 htf.2.2.1 rfl
        (by show no'.filled = q - no'.amount; omega) htf.2.2.2.1
        htf.2.2.2.2.1 hstat htf.2.2.2.2.2.1
    have hnoq : (newOrderRow st tid tk q (some p) OrderSide.ASK).amount = q := rfl
    rw [hnoq] at hspec
    have hq' : ¬ st.positions tid tk < q := not_lt.mpr hpos0
    by_cases hex : no'.status = OrderStatus.EXECUTED
    · have h00 : no'.amount = 0 := hexec0 hex
      have hEsrc : createLimitSellOrderE st tk q (some p) tid =
          Except.ok ({ st' with
              orders := st'.orders ++ [no']
              nextOid := st'.nextOid + 1 }, no') := by
        unfold createLimitSellOrderE
        rw [hloop]
        simp only [bind, Except.bind]
        rw [if_neg (by simp [hex])]
        simp only [pure, Except.pure]
      rw [createLimitSellOrder_of_ok hEsrc]
      unfold specSubmitAsk
      rw [if_neg hq']
      rw [hspec]
      dsimp only
      simp only [Prod.mk.injEq]
      refine ⟨exchange_eq_of_fields rfl ?_ ?_ rfl rfl, h2⟩
      · have harith : -q + (q - no'.amount) = 0 := by
          rw [h00]
          ring
        rw [harith, updPos_zero]
      · rw [← h2]
    · have hfrz : freezeBalance st' tid tk no'.amount =
          Except.ok { st' with positions := updPos st'.positions tid tk (-no'.amount) } := by
        unfold freezeBalance
        rw [if_neg htkB, if_neg (not_lt.mpr hfund')]
      have hEsrc : createLimitSellOrderE st tk q (some p) tid =
          Except.ok ({ st' with
              positions := updPos st'.positions tid tk (-no'.amount)
              orders := st'.orders ++ [no']
              nextOid := st'.nextOid + 1 }, no') := by
        unfold createLimitSellOrderE
        rw [hloop]
        simp only [bind, Except.bind]
        rw [if_pos (by simp [hex])]
        rw [hfrz]
        simp only [pure, Except.pure]
      rw [createLimitSellOrder_of_ok hEsrc]
      unfold specSubmitAsk
      rw [if_neg hq']
      rw [hspec]
      dsimp only
      simp only [Prod.mk.injEq]
      refine ⟨exchange_eq_of_fields rfl ?_ ?_ rfl rfl, h2⟩
      · have harith : -q + (q - no'.amount) = -no'.amount := by ring
        rw [harith]
      · rw [← h2]

/-- Witness for `reservation_protocol_equiv` at the well-funded store
`stRich`: trader 1 can reserve 5*120 cash for the BID and 5 units of AAA for
the ASK, and both submissions agree with the spec protocol exactly. -/
theorem reservation_protocol_equiv_witness :
    WF stRich ∧ (0 : Int) < 5 ∧ (0 : Int) < 120 ∧
      (5 : Int) * 120 ≤ stRich.balances 1 ∧
      "AAA" ≠ BASE_CURRENCY_TICKER ∧ (5 : Int) ≤ stRich.positions 1 "AAA" ∧
      createLimitBuyOrder stRich "AAA" 5 (some 120) 1 = specSubmitBid stRich "AAA" 5 120 1 ∧
      createLimitSellOrder stRich "AAA" 5 (some 120) 1 =
        specSubmitAsk stRich "AAA" 5 120 1 :=
  ⟨by decide, by decide, by decide, by decide, by decide, by decide,
    (reservation_protocol_equiv stRich "AAA" 5 120 1 (by decide) (by decide) (by decide)).1
      (by decide),
    (reservation_protocol_equiv stRich "AAA" 5 120 1 (by decide) (by decide) (by decide)).2
      (by decide) (by decide)⟩
